import Mathlib

/-!
Dalvik JIT compiler work queue (`vm/compiler/Compiler.c`)

A shallow embedding of the compiler thread's work queue and of the code
cache reset of `vm/compiler/Compiler.c`.

Conventions of the embedding

* `gDvmJit` / `gDvm` become the explicit record `JitState`, threaded through
  every function; a C function returning a value returns a pair.
* Pointers (`pc`, `info`, `codeAddress`, thread pointers) are natural numbers,
  `NULL` is `0`.
* The two queue indices are only ever incremented or zeroed, so they are
  `Nat`; `compilerQueueLength` is decremented, so it is `Int`.
* `COMPILER_WORK_QUEUE_SIZE` is defined in a header that is not part of the
  sources at hand; it is the parameter `cap` of every function using it.
* Calls into collaborators that have no effect on `gDvmJit` (condition
  variable signals, `free`, the JIT table, thread suspension) are appended to
  `JitState.calls`, the log of external calls, in program order.
* Mutex operations and `dvmChangeStatus` are not modelled: each function body
  is one critical section.
-/

namespace Dalvik

/-- Modelled from the spec: the enum `WorkOrderKind` is declared in
`Compiler.h`, which is missing; the spec lists the variants
{NormalTranslation, DebugTranslation, InlineCachePatch, Invalid}.  The names are
the ones `Compiler.c` uses (`kWorkOrderTrace` is the normal translation). -/
inductive WorkOrderKind where
  | kWorkOrderInvalid
  | kWorkOrderTrace
  | kWorkOrderTraceDebug
  | kWorkOrderICPatch
deriving DecidableEq

open WorkOrderKind

/-- The struct `JitTranslationInfo` (`work.result`): the fields `Compiler.c`
reads or writes. -/
structure JitTranslationInfo where
  codeAddress : Nat
  instructionSet : Nat
  discardResult : Bool
  requestingThread : Nat
deriving DecidableEq

/-- The struct `CompilerWorkOrder`: one slot of the work queue. -/
structure CompilerWorkOrder where
  pc : Nat
  kind : WorkOrderKind
  info : Nat
  result : JitTranslationInfo
deriving DecidableEq

/-- Modelled from the spec: what `memset(.., 0, ..)` leaves in a slot.  That the
all-zero `kind` is `kWorkOrderInvalid` is in the missing `Compiler.h`; the spec
says a reset clears "all slots to `Invalid`". -/
def zeroOrder : CompilerWorkOrder :=
  { pc := 0, kind := kWorkOrderInvalid, info := 0,
    result := { codeAddress := 0, instructionSet := 0, discardResult := false,
                requestingThread := 0 } }

instance : Inhabited CompilerWorkOrder := ⟨zeroOrder⟩

/-- A `StackSaveArea`: the saved return address into JIT code, and the rest of
the save area (never touched by `Compiler.c`).  The `prevFrame` link is the
position in `Thread.frames`. -/
structure StackSaveArea where
  returnAddr : Nat
  rest : Nat
deriving DecidableEq

/-- A `Thread` of `gDvm.threadList`: its identity (the pointer) and the chain of
save areas reached from `curFrame` through `prevFrame` up to `NULL`, innermost
first. -/
structure Thread where
  self : Nat
  frames : List StackSaveArea
deriving DecidableEq

/-- The calls `Compiler.c` makes into its collaborators, as they are logged. -/
inductive Call where
  | signalActivity
  | signalEmpty
  | free (info : Nat)
  | dvmJitSetCodeAddr (pc codeAddress instructionSet : Nat)
  | dvmJitResetTable
  | dvmJitResizeJitTable (size : Nat)
  | dvmSuspendAllThreads
  | dvmResumeAllThreads
  | dvmCheckSuspendPending
  | dvmCompilerDoWork (pc : Nat)
deriving DecidableEq

/-- The fields of `gDvmJit` (and `gDvm.threadList`) used by `Compiler.c`, and the
log of external calls. -/
structure JitState where
  compilerWorkQueue : List CompilerWorkOrder
  compilerWorkEnqueueIndex : Nat
  compilerWorkDequeueIndex : Nat
  compilerQueueLength : Int
  compilerHighWater : Int
  compilerMaxQueued : Int
  haltCompilerThread : Bool
  codeCache : Nat
  codeCacheFull : Bool
  codeCacheByteUsed : Nat
  templateSize : Nat
  numCompilations : Nat
  interpretTemplate : Nat
  jitTableSize : Nat
  jitTableEntriesUsed : Nat
  threadList : List Thread
  calls : List Call
deriving DecidableEq

/-- Read `gDvmJit.compilerWorkQueue[i]`. -/
def slot (s : JitState) (i : Nat) : CompilerWorkOrder :=
  s.compilerWorkQueue.getD i zeroOrder

/-- `workQueueLength`: the length converted to `bool`. -/
def workQueueLength (s : JitState) : Bool :=
  s.compilerQueueLength != 0

/-- `workDequeue` (the `assert` is compiled out of release builds and has no
effect). -/
def workDequeue (cap : Nat) (s : JitState) : CompilerWorkOrder × JitState :=
  let work := slot s s.compilerWorkDequeueIndex
  let queue := s.compilerWorkQueue.set s.compilerWorkDequeueIndex
    { work with kind := kWorkOrderInvalid }
  let deq := s.compilerWorkDequeueIndex + 1
  let deq := if deq = cap then 0 else deq
  let len := s.compilerQueueLength - 1
  let calls := if len = 0 then s.calls ++ [Call.signalEmpty] else s.calls
  let maxq := if len > s.compilerMaxQueued then len else s.compilerMaxQueued
  (work, { s with compilerWorkQueue := queue, compilerWorkDequeueIndex := deq,
                  compilerQueueLength := len, compilerMaxQueued := maxq,
                  calls := calls })

/-- The scan of `dvmCompilerWorkEnqueue` for a queued `pc`: `numWork` iterations
from index `i`, wrapping at `cap`; `true` when the loop leaves through
`goto done`. -/
def alreadyEnqueued (cap : Nat) (queue : List CompilerWorkOrder) (pc : Nat) :
    Nat → Nat → Bool
  | 0, _ => false
  | numWork + 1, i =>
    if (queue.getD i zeroOrder).pc = pc then true
    else alreadyEnqueued cap queue pc numWork (if i + 1 = cap then 0 else i + 1)

/-- `dvmCompilerWorkEnqueue`; `self` is `dvmThreadSelf()`. -/
def dvmCompilerWorkEnqueue (cap : Nat) (self : Nat) (pc : Nat) (kind : WorkOrderKind)
    (info : Nat) (s : JitState) : Bool × JitState :=
  if s.compilerQueueLength = (cap : Int) ∨ s.codeCacheFull = true then
    (false, s)
  else if alreadyEnqueued cap s.compilerWorkQueue pc s.compilerQueueLength.toNat
      s.compilerWorkDequeueIndex = true then
    (true, s)
  else
    let old := slot s s.compilerWorkEnqueueIndex
    let newOrder : CompilerWorkOrder :=
      { pc := pc, kind := kind, info := info,
        result := { old.result with
          codeAddress := 0,
          discardResult := (kind == kWorkOrderTraceDebug || kind == kWorkOrderICPatch),
          requestingThread := self } }
    let enq := s.compilerWorkEnqueueIndex + 1
    let enq := if enq = cap then 0 else enq
    (true, { s with
      compilerWorkQueue := s.compilerWorkQueue.set s.compilerWorkEnqueueIndex newOrder,
      compilerWorkEnqueueIndex := enq,
      compilerQueueLength := s.compilerQueueLength + 1,
      calls := s.calls ++ [Call.signalActivity] })

/-- The frame crawl of `resetCodeCache` for one thread: every save area of the
chain gets `returnAddr = NULL`. -/
def wipeReturnAddrs (frames : List StackSaveArea) : List StackSaveArea :=
  frames.map (fun ssa => { ssa with returnAddr := 0 })

/-- `resetCodeCache`; `self` is `dvmThreadSelf()`. -/
def resetCodeCache (cap : Nat) (self : Nat) (s : JitState) : JitState :=
  { s with
    threadList := s.threadList.map (fun thread =>
      if thread.self = self then thread
      else { thread with frames := wipeReturnAddrs thread.frames }),
    codeCacheByteUsed := s.templateSize,
    numCompilations := 0,
    compilerWorkQueue := List.replicate cap zeroOrder,
    compilerWorkEnqueueIndex := 0,
    compilerWorkDequeueIndex := 0,
    compilerQueueLength := 0,
    codeCacheFull := false,
    calls := s.calls ++ [Call.dvmSuspendAllThreads, Call.dvmJitResetTable,
                         Call.dvmResumeAllThreads] }

/-- `MAP_FAILED` of `<sys/mman.h>`: `(void *) -1` on the 32-bit targets. -/
def MAP_FAILED : Nat := 2 ^ 32 - 1

/-- What the collaborators called by `dvmCompilerStartup` answer: the result of
`dvmCompilerArchInit`, of `mmap` (`none` is `MAP_FAILED`), the size of the
template code, the result of `dvmCompilerHeapInit` and of
`dvmCreateInternalThread`. -/
structure StartupEnv where
  archInit : Bool
  mmap : Option Nat
  templateSize : Nat
  heapInit : Bool
  createThread : Bool
deriving DecidableEq

/-- `dvmCompilerSetupCodeCache`. -/
def dvmCompilerSetupCodeCache (env : StartupEnv) (s : JitState) : Bool × JitState :=
  match env.mmap with
  | none => (false, { s with codeCache := MAP_FAILED })
  | some addr =>
    (true, { s with codeCache := addr, templateSize := env.templateSize,
                    codeCacheByteUsed := env.templateSize })

/-- `dvmCompilerStartup` (the statistics table it creates last is not part of
`JitState`). -/
def dvmCompilerStartup (cap : Nat) (env : StartupEnv) (s : JitState) : Bool × JitState :=
  if env.archInit = false then (false, s)
  else
    let r := if s.codeCache = 0 then dvmCompilerSetupCodeCache env s else (true, s)
    if r.1 = false then (false, r.2)
    else if env.heapInit = false then (false, r.2)
    else
      let s1 : JitState :=
        { r.2 with
          haltCompilerThread := false,
          compilerWorkQueue := List.replicate cap zeroOrder,
          compilerWorkEnqueueIndex := 0,
          compilerWorkDequeueIndex := 0,
          compilerQueueLength := 0,
          compilerHighWater := 0 }
      if env.createThread = false then (false, s1) else (true, s1)

/-- Modelled from the spec: `dvmCompilerDoWork` is defined outside `Compiler.c`.
The spec gives its interface, "compile(request) → success:boolean, writes into
request.outcome.resultAddress on success", and says of the code cache that
"when an allocation would exceed CACHE_CAPACITY, isFull is set".  The record is
what one call answers: the return value, the translation it left in
`work.result`, the bytes it appended to the code cache and whether it marked
the cache full. -/
structure DoWorkResult where
  success : Bool
  codeAddress : Nat
  instructionSet : Nat
  bytes : Nat
  cacheFull : Bool
deriving DecidableEq

/-- The check "Is JitTable filling up?" of `compilerThreadStart`: when more than
three quarters of the table are used, `dvmJitResizeJitTable` is asked for twice
the size.  Modelled from the spec: `dvmJitResizeJitTable` is defined outside
`Compiler.c`; the spec says the compiler thread "doubles its capacity". -/
def checkJitTable (s : JitState) : JitState :=
  if s.jitTableEntriesUsed > s.jitTableSize - s.jitTableSize / 4 then
    { s with jitTableSize := s.jitTableSize * 2,
             calls := s.calls ++ [Call.dvmJitResizeJitTable (s.jitTableSize * 2)] }
  else s

/-- The `if (gDvmJit.haltCompilerThread) ... else ...` of `compilerThreadStart`
for the dequeued order `work`: nothing when a halt is pending; otherwise the
compilation, the interpreter template as code address when it failed, and the
installation of the result unless it is to be discarded. -/
def compileWork (doWork : JitState → CompilerWorkOrder → DoWorkResult)
    (work : CompilerWorkOrder) (s : JitState) : JitState :=
  if s.haltCompilerThread = true then s
  else
    let r := doWork s work
    let codeAddress := if r.success = false then s.interpretTemplate else r.codeAddress
    let s1 : JitState :=
      { s with codeCacheByteUsed := s.codeCacheByteUsed + r.bytes,
               codeCacheFull := s.codeCacheFull || r.cacheFull,
               calls := s.calls ++ [Call.dvmCompilerDoWork work.pc] }
    if work.result.discardResult = false then
      { s1 with calls := s1.calls ++
          [Call.dvmJitSetCodeAddr work.pc codeAddress r.instructionSet] }
    else s1

/-- The body of the `do ... while` loop of `compilerThreadStart`: dequeue one
work order, check for a pending suspension and for a filling JIT table, compile
the order unless a halt is pending, free the payload and reset the code cache
when it is full.  `doWork` is the answer of `dvmCompilerDoWork` for the
dequeued order; `self` is the compiler thread. -/
def compilerThreadWork (cap : Nat) (self : Nat)
    (doWork : JitState → CompilerWorkOrder → DoWorkResult) (s : JitState) : JitState :=
  let wd := workDequeue cap s
  let work := wd.1
  let s1 : JitState := { wd.2 with calls := wd.2.calls ++ [Call.dvmCheckSuspendPending] }
  let s2 := checkJitTable s1
  let s3 := compileWork doWork work s2
  let s4 : JitState := { s3 with calls := s3.calls ++ [Call.free work.info] }
  if s4.codeCacheFull = true then resetCodeCache cap self s4 else s4

/-! Vocabulary of the properties -/

/-- The array index of the `k`-th queued slot: `k` places after the dequeue
index, wrapping at `cap`. -/
def liveIndex (cap : Nat) (s : JitState) (k : Nat) : Nat :=
  (s.compilerWorkDequeueIndex + k) % cap

/-- The live slots: the `compilerQueueLength` slots starting at the dequeue
index, oldest first. -/
def liveSlots (cap : Nat) (s : JitState) : List CompilerWorkOrder :=
  (List.range s.compilerQueueLength.toNat).map (fun k => slot s (liveIndex cap s k))

/-- Array index `j` is one of the live slots. -/
def isLive (cap : Nat) (s : JitState) (j : Nat) : Prop :=
  ∃ k : Nat, (k : Int) < s.compilerQueueLength ∧ j = liveIndex cap s k

/-- Some live slot holds the address `pc`. -/
def queued (cap : Nat) (s : JitState) (pc : Nat) : Prop :=
  ∃ k : Nat, (k : Int) < s.compilerQueueLength ∧ (slot s (liveIndex cap s k)).pc = pc

/-- A queue state: the array has `cap` slots, both indices are inside it and the
length is between `0` and `cap`. -/
def QueueState (cap : Nat) (s : JitState) : Prop :=
  s.compilerWorkQueue.length = cap ∧
  s.compilerWorkEnqueueIndex < cap ∧
  s.compilerWorkDequeueIndex < cap ∧
  0 ≤ s.compilerQueueLength ∧ s.compilerQueueLength ≤ (cap : Int)

/-- The length is between `0` and the capacity. -/
def LengthInv (cap : Nat) (s : JitState) : Prop :=
  0 ≤ s.compilerQueueLength ∧ s.compilerQueueLength ≤ (cap : Int)

/-- A queue state whose enqueue index is the dequeue index plus the length,
modulo the capacity. -/
def Consistent (cap : Nat) (s : JitState) : Prop :=
  QueueState cap s ∧
  s.compilerWorkEnqueueIndex =
    (s.compilerWorkDequeueIndex + s.compilerQueueLength.toNat) % cap

/-- The work order `dvmCompilerWorkEnqueue` writes at the enqueue index. -/
def newOrder (self pc : Nat) (kind : WorkOrderKind) (info : Nat) (s : JitState) :
    CompilerWorkOrder :=
  { pc := pc, kind := kind, info := info,
    result := { (slot s s.compilerWorkEnqueueIndex).result with
      codeAddress := 0,
      discardResult := (kind == kWorkOrderTraceDebug || kind == kWorkOrderICPatch),
      requestingThread := self } }

/-- The operations on the queue. -/
inductive QueueOp where
  | enqueue (self pc : Nat) (kind : WorkOrderKind) (info : Nat)
  | dequeue
  | reset (self : Nat)
deriving DecidableEq

/-- A request as the caller of `dvmCompilerWorkEnqueue` passes it. -/
abbrev Request := Nat × WorkOrderKind × Nat

/-- The request a work order carries. -/
def CompilerWorkOrder.request (w : CompilerWorkOrder) : Request :=
  (w.pc, w.kind, w.info)

/-- A run of queue operations under observation: the state, the requests for
which `dvmCompilerWorkEnqueue` wrote a slot, and the work orders `workDequeue`
returned, both in program order. -/
structure QueueRun where
  jit : JitState
  written : List Request
  served : List CompilerWorkOrder
deriving DecidableEq

/-- The start of a run. -/
def QueueRun.start (s : JitState) : QueueRun :=
  { jit := s, written := [], served := [] }

/-- One operation of a run.  A `workDequeue` issued when the length is not
positive is outside the contract of `workDequeue` and ends the run (`none`). -/
def runStep (cap : Nat) (r : QueueRun) : QueueOp → Option QueueRun
  | QueueOp.enqueue self pc kind info =>
    let s := (dvmCompilerWorkEnqueue cap self pc kind info r.jit).2
    some { r with
      jit := s,
      written :=
        if s.compilerQueueLength = r.jit.compilerQueueLength then r.written
        else r.written ++ [(pc, kind, info)] }
  | QueueOp.dequeue =>
    if 0 < r.jit.compilerQueueLength then
      let wd := workDequeue cap r.jit
      some { r with jit := wd.2, served := r.served ++ [wd.1] }
    else none
  | QueueOp.reset self => some { r with jit := resetCodeCache cap self r.jit }

/-- A run of operations, left to right. -/
def runFrom (cap : Nat) (r : QueueRun) : List QueueOp → Option QueueRun
  | [] => some r
  | op :: ops =>
    match runStep cap r op with
    | none => none
    | some r1 => runFrom cap r1 ops

/-- The operation is a reset of the code cache. -/
def QueueOp.isReset : QueueOp → Bool
  | QueueOp.reset _ => true
  | _ => false

/-- The operation is not an enqueue of kind `kWorkOrderInvalid`. -/
def QueueOp.validKind : QueueOp → Bool
  | QueueOp.enqueue _ _ kind _ => kind != kWorkOrderInvalid
  | _ => true

/-- No operation of the list is a reset. -/
def noReset (ops : List QueueOp) : Bool :=
  ops.all (fun op => !op.isReset)

/-- Every enqueue of the list passes a kind other than `kWorkOrderInvalid`. -/
def validKinds (ops : List QueueOp) : Bool :=
  ops.all QueueOp.validKind

/-- The invariant of a run without reset: the indices are consistent, and the
requests written so far are the ones already served followed by the ones still
in the live slots. -/
def FifoInv (cap : Nat) (r : QueueRun) : Prop :=
  Consistent cap r.jit ∧
  r.written = (r.served ++ liveSlots cap r.jit).map CompilerWorkOrder.request

/-- No two distinct live slots hold the same address. -/
def UniqueLive (cap : Nat) (s : JitState) : Prop :=
  ∀ j k : Nat, (j : Int) < s.compilerQueueLength → (k : Int) < s.compilerQueueLength →
    (slot s (liveIndex cap s j)).pc = (slot s (liveIndex cap s k)).pc → j = k

/-- A slot of the array is tagged `kWorkOrderInvalid` exactly when it is not
live. -/
def TagInv (cap : Nat) (s : JitState) : Prop :=
  ∀ j, j < cap → ((slot s j).kind = kWorkOrderInvalid ↔ ¬ isLive cap s j)

/-- How many times `free` was called on `info`. -/
def freeCount (s : JitState) (info : Nat) : Nat :=
  s.calls.count (Call.free info)

/-- How many times the JIT table was reset. -/
def resetTableCount (s : JitState) : Nat :=
  s.calls.count Call.dvmJitResetTable

/-- A zero-initialised `gDvmJit` with `cap` queue slots, before start-up, for
the examples. -/
def blankJit (cap : Nat) : JitState :=
  { compilerWorkQueue := List.replicate cap zeroOrder,
    compilerWorkEnqueueIndex := 0, compilerWorkDequeueIndex := 0,
    compilerQueueLength := 0, compilerHighWater := 0, compilerMaxQueued := 0,
    haltCompilerThread := false, codeCache := 0, codeCacheFull := false,
    codeCacheByteUsed := 0, templateSize := 0, numCompilations := 0,
    interpretTemplate := 0, jitTableSize := 0, jitTableEntriesUsed := 0,
    threadList := [], calls := [] }

/-- A start-up environment in which every collaborator succeeds. -/
def goodEnv : StartupEnv :=
  { archInit := true, mmap := some 4096, templateSize := 64, heapInit := true,
    createThread := true }

/-- The state `dvmCompilerStartup` leaves from `blankJit` under `goodEnv`. -/
def startJit (cap : Nat) : JitState :=
  (dvmCompilerStartup cap goodEnv (blankJit cap)).2

/-- The queue of four slots after one accepted request for the address `7`. -/
def onceQueued : JitState :=
  (dvmCompilerWorkEnqueue 4 1 7 kWorkOrderTrace 9 (startJit 4)).2

/-- The queue of four slots after a request of kind `kWorkOrderInvalid`. -/
def invalidQueued : JitState :=
  (dvmCompilerWorkEnqueue 4 1 7 kWorkOrderInvalid 9 (startJit 4)).2

/-- A run on four slots that wraps the indices: two requests, a dequeue, a
duplicate of a queued address, three more requests, two dequeues. -/
def fifoOps : List QueueOp :=
  [QueueOp.enqueue 1 7 kWorkOrderTrace 70, QueueOp.enqueue 2 8 kWorkOrderICPatch 80,
   QueueOp.dequeue, QueueOp.enqueue 1 8 kWorkOrderTrace 81,
   QueueOp.enqueue 1 9 kWorkOrderTraceDebug 90, QueueOp.enqueue 1 10 kWorkOrderTrace 100,
   QueueOp.enqueue 1 11 kWorkOrderTrace 110, QueueOp.dequeue, QueueOp.dequeue]

/-- Where the run `fifoOps` ends. -/
def fifoRun : QueueRun :=
  (runFrom 4 (QueueRun.start (startJit 4)) fifoOps).getD (QueueRun.start (startJit 4))

/-- A run on four slots with a reset in the middle. -/
def mixedOps : List QueueOp :=
  [QueueOp.enqueue 1 7 kWorkOrderTrace 70, QueueOp.enqueue 2 8 kWorkOrderICPatch 80,
   QueueOp.dequeue, QueueOp.enqueue 1 9 kWorkOrderTrace 90, QueueOp.reset 5,
   QueueOp.enqueue 1 8 kWorkOrderTrace 81, QueueOp.enqueue 1 9 kWorkOrderTraceDebug 91]

/-- Where the run `mixedOps` ends. -/
def mixedRun : QueueRun :=
  (runFrom 4 (QueueRun.start (startJit 4)) mixedOps).getD (QueueRun.start (startJit 4))

/-- The queue of four slots holding the addresses `7` (payload `9`) and `8`
(payload `80`). -/
def twoQueued : JitState :=
  (dvmCompilerWorkEnqueue 4 2 8 kWorkOrderTrace 80 onceQueued).2

/-- A compilation that succeeds and fills the code cache. -/
def fillingWork (_s : JitState) (_work : CompilerWorkOrder) : DoWorkResult :=
  { success := true, codeAddress := 4200, instructionSet := 1, bytes := 100,
    cacheFull := true }

/-- The state after the compiler thread (thread `5`) worked on the first order
of `twoQueued` and the compilation filled the code cache. -/
def afterFullCache : JitState :=
  compilerThreadWork 4 5 fillingWork twoQueued

/-- The installations into the translation table so far: the arguments of the
calls of `dvmJitSetCodeAddr`, in program order. -/
def installs (s : JitState) : List (Nat × Nat × Nat) :=
  s.calls.filterMap (fun c =>
    match c with
    | Call.dvmJitSetCodeAddr pc codeAddress instructionSet =>
      some (pc, codeAddress, instructionSet)
    | _ => none)

/-- The addresses `dvmCompilerDoWork` was called for so far, in program order. -/
def compiled (s : JitState) : List Nat :=
  s.calls.filterMap (fun c =>
    match c with
    | Call.dvmCompilerDoWork pc => some pc
    | _ => none)

/-- The state of `gDvmJit` when the loop body of `compilerThreadStart` reaches
`if (gDvmJit.haltCompilerThread)`: after the dequeue, the suspension check and
the check of the JIT table. -/
def stateAtCompile (cap : Nat) (s : JitState) : JitState :=
  checkJitTable
    { (workDequeue cap s).2 with
      calls := (workDequeue cap s).2.calls ++ [Call.dvmCheckSuspendPending] }

/-- The value of `work.result.codeAddress` after
`if (!dvmCompilerDoWork(&work)) work.result.codeAddress = gDvmJit.interpretTemplate;`
when the call answered `r`. -/
def resultCodeAddress (r : DoWorkResult) (s : JitState) : Nat :=
  if r.success = false then s.interpretTemplate else r.codeAddress

/-- A compilation that fails. -/
def failingWork (_s : JitState) (_work : CompilerWorkOrder) : DoWorkResult :=
  { success := false, codeAddress := 0, instructionSet := 2, bytes := 0,
    cacheFull := false }

/-- The queue of four slots holding one request of kind `kWorkOrderICPatch`,
whose result is to be discarded. -/
def patchQueued : JitState :=
  (dvmCompilerWorkEnqueue 4 1 7 kWorkOrderICPatch 9 (startJit 4)).2

/-- The state `onceQueued` with an interpreter template at `512`. -/
def templateQueued : JitState :=
  { onceQueued with interpretTemplate := 512 }

/-- A sequence of calls of `dvmCompilerWorkEnqueue` by the thread `self`, one
per request, in order: the values returned and the state reached. -/
def enqueueAll (cap self : Nat) : List Request → JitState → List Bool × JitState
  | [], s => ([], s)
  | req :: rest, s =>
    let r := dvmCompilerWorkEnqueue cap self req.1 req.2.1 req.2.2 s
    let rr := enqueueAll cap self rest r.2
    (r.1 :: rr.1, rr.2)

/-- The scenario "fill, reject, drain one": the state after the requests `reqs`
were enqueued. -/
def afterFill (cap self : Nat) (reqs : List Request) (s : JitState) : JitState :=
  (enqueueAll cap self reqs s).2

/-- The scenario "fill, reject, drain one": the state after the further request
`extra` was enqueued on `afterFill`. -/
def afterExtra (cap self : Nat) (reqs : List Request) (extra : Request) (s : JitState) :
    JitState :=
  (dvmCompilerWorkEnqueue cap self extra.1 extra.2.1 extra.2.2 (afterFill cap self reqs s)).2

/-- The scenario "fill, reject, drain one": the state after one `workDequeue` on
`afterExtra`. -/
def afterDrainOne (cap self : Nat) (reqs : List Request) (extra : Request) (s : JitState) :
    JitState :=
  (workDequeue cap (afterExtra cap self reqs extra s)).2

/-- Four requests with the addresses `11`, `12`, `13`, `14`. -/
def fourRequests : List Request :=
  [(11, kWorkOrderTrace, 110), (12, kWorkOrderTraceDebug, 120), (13, kWorkOrderTrace, 130),
   (14, kWorkOrderICPatch, 140)]

/-- The state `onceQueued` with the code cache marked full. -/
def fullCacheQueued : JitState :=
  { onceQueued with codeCacheFull := true }

/-- The `do ... while (workQueueLength() != 0)` loop of `compilerThreadStart`,
with `fuel` bounding the number of iterations (`none` when it is used up). -/
def drainLoop (cap self : Nat) (doWork : JitState → CompilerWorkOrder → DoWorkResult) :
    Nat → JitState → Option JitState
  | 0, _ => none
  | fuel + 1, s =>
    let s1 := compilerThreadWork cap self doWork s
    if workQueueLength s1 = true then drainLoop cap self doWork fuel s1 else some s1

/-- Where the loop of `compilerThreadStart` stops: blocked in
`pthread_cond_wait` on the "activity" condition, or left for good. -/
inductive ThreadStop where
  | waiting (s : JitState)
  | exited (s : JitState)
deriving DecidableEq

/-- The loop `while (!gDvmJit.haltCompilerThread)` of `compilerThreadStart`, up
to the next `pthread_cond_wait` or to the end of the loop followed by the last
signal of the "empty" condition.  After a wait the thread goes on (`continue`)
from the state the other threads have left.  `fuel` bounds the iterations. -/
def compilerThreadLoop (cap self : Nat) (doWork : JitState → CompilerWorkOrder → DoWorkResult) :
    Nat → JitState → Option ThreadStop
  | 0, _ => none
  | fuel + 1, s =>
    if s.haltCompilerThread = true then
      some (ThreadStop.exited { s with calls := s.calls ++ [Call.signalEmpty] })
    else if workQueueLength s = false then
      some (ThreadStop.waiting { s with calls := s.calls ++ [Call.signalEmpty] })
    else
      match drainLoop cap self doWork fuel s with
      | none => none
      | some s1 => compilerThreadLoop cap self doWork fuel s1

/-- The queue `twoQueued` with a halt requested. -/
def haltQueued : JitState :=
  { twoQueued with haltCompilerThread := true }

/-- A save area as it lies in memory: the link `prevFrame` to the frame of the
caller (`NULL` at the end of the chain) and the fields of `StackSaveArea`. -/
structure SaveAreaCell where
  prevFrame : Nat
  area : StackSaveArea
deriving DecidableEq

/-- The interpreter stacks as memory: the save area that belongs to each frame
pointer (`((StackSaveArea *) fp) - 1`). -/
abbrev StackMemory := Nat → SaveAreaCell

/-- The loop "Crawl the Dalvik stack frames" of `resetCodeCache` on memory, from
the frame pointer `fp`: while the frame pointer is not `NULL`, the save area gets
`returnAddr = NULL` and the walk goes on at `prevFrame`.  `fuel` bounds the
number of frames visited (`none` when it is used up before `NULL` is reached). -/
def crawlFrames : Nat → StackMemory → Nat → Option StackMemory
  | 0, mem, fp => if fp = 0 then some mem else none
  | fuel + 1, mem, fp =>
    if fp = 0 then some mem
    else
      crawlFrames fuel
        (Function.update mem fp
          { mem fp with area := { (mem fp).area with returnAddr := 0 } })
        (mem fp).prevFrame

/-- The frame pointers `addrs` are the chain of frames that starts at `fp`, is
linked by `prevFrame` and ends at `NULL`. -/
inductive FrameChain (mem : StackMemory) : Nat → List Nat → Prop where
  | done : FrameChain mem 0 []
  | link (fp : Nat) (rest : List Nat) :
      fp ≠ 0 → FrameChain mem (mem fp).prevFrame rest → FrameChain mem fp (fp :: rest)

/-- The save areas of a chain, innermost first: the `Thread.frames` of the
thread whose `curFrame` starts the chain. -/
def chainFrames (mem : StackMemory) (addrs : List Nat) : List StackSaveArea :=
  addrs.map (fun a => (mem a).area)

/-- A stack of two frames, at `8` and `16`. -/
def twoFrames : StackMemory :=
  fun a =>
    if a = 8 then { prevFrame := 16, area := { returnAddr := 100, rest := 1 } }
    else if a = 16 then { prevFrame := 0, area := { returnAddr := 200, rest := 2 } }
    else { prevFrame := 0, area := { returnAddr := 300, rest := 3 } }

/-- The state `onceQueued` with the compiler thread `5`, a thread `6` of two
frames and a thread `7` without frame. -/
def threadsJit : JitState :=
  { onceQueued with
    threadList :=
      [{ self := 5, frames := [{ returnAddr := 50, rest := 0 }] },
       { self := 6, frames := [{ returnAddr := 100, rest := 1 }, { returnAddr := 200, rest := 2 }] },
       { self := 7, frames := [] }] }

/-- `dvmCompilerDrainQueue`.  `pthread_cond_wait` gives the lock up, so the state
found at the return from each wait is what the other threads have left: `wake`
lists these states in order.  The result is the state at the return of the
function and the number of waits made; `none` when the thread is still waiting
after the last state of `wake`. -/
def dvmCompilerDrainQueue : List JitState → JitState → Option (JitState × Nat)
  | [], s =>
    if workQueueLength s = true ∧ s.haltCompilerThread = false then none
    else some (s, 0)
  | s1 :: wake, s =>
    if workQueueLength s = true ∧ s.haltCompilerThread = false then
      (dvmCompilerDrainQueue wake s1).map (fun r => (r.1, r.2 + 1))
    else some (s, 0)

/-- The start of `compilerThreadStart`, up to the loop: after the delay the high
water mark is raised to
`COMPILER_WORK_QUEUE_SIZE - (COMPILER_WORK_QUEUE_SIZE/4)`. -/
def compilerThreadInit (cap : Nat) (s : JitState) : JitState :=
  { s with compilerHighWater := (cap : Int) - (cap : Int) / 4 }

/-- The largest length the queue has in the course of a run, its start
included. -/
def peakLength (cap : Nat) : QueueRun → List QueueOp → Int
  | r, [] => r.jit.compilerQueueLength
  | r, op :: ops =>
    match runStep cap r op with
    | none => r.jit.compilerQueueLength
    | some r1 => max r.jit.compilerQueueLength (peakLength cap r1 ops)

/-- Two requests and a dequeue. -/
def peakOps : List QueueOp :=
  [QueueOp.enqueue 1 7 kWorkOrderTrace 70, QueueOp.enqueue 1 8 kWorkOrderTrace 80,
   QueueOp.dequeue]

/-- Where the run `peakOps` ends. -/
def peakRun : QueueRun :=
  (runFrom 4 (QueueRun.start (startJit 4)) peakOps).getD (QueueRun.start (startJit 4))

/-- The array indices the scan of `dvmCompilerWorkEnqueue` reads when it runs to
its end: `numWork` indices from `i`, wrapping at `cap`. -/
def scanVisited (cap : Nat) : Nat → Nat → List Nat
  | 0, _ => []
  | numWork + 1, i => i :: scanVisited cap numWork (if i + 1 = cap then 0 else i + 1)

/-- The payloads `free` was called on so far, in program order. -/
def freed (s : JitState) : List Nat :=
  s.calls.filterMap (fun c =>
    match c with
    | Call.free info => some info
    | _ => none)

/-- The state in which the compiler thread leaves its loop when the test of the
outer `while` finds the halt requested on `haltQueued`. -/
def haltExit : JitState :=
  { haltQueued with calls := haltQueued.calls ++ [Call.signalEmpty] }

/-! Theorems -/

/-! Arrays and the scan -/

theorem getD_set (q : List CompilerWorkOrder) (i j : Nat) (w : CompilerWorkOrder) :
    (q.set i w).getD j zeroOrder =
      if i = j ∧ i < q.length then w else q.getD j zeroOrder := by
  simp only [List.getD_eq_getElem?_getD, List.getElem?_set]
  by_cases h : i = j
  · subst h
    by_cases h2 : i < q.length
    · simp [h2]
    · have h3 : q[i]? = none := List.getElem?_eq_none (by omega)
      simp [h2, h3]
  · simp [h]

theorem getD_replicate (cap j : Nat) :
    (List.replicate cap zeroOrder).getD j zeroOrder = zeroOrder := by
  simp only [List.getD_eq_getElem?_getD, List.getElem?_replicate]
  by_cases h : j < cap <;> simp [h]

theorem wrap_eq_mod {cap i : Nat} (h : i < cap) :
    (if i + 1 = cap then 0 else i + 1) = (i + 1) % cap := by
  by_cases h1 : i + 1 = cap
  · simp [h1]
  · rw [if_neg h1, Nat.mod_eq_of_lt (by omega)]

theorem alreadyEnqueued_iff (cap : Nat) (q : List CompilerWorkOrder) (pc : Nat) :
    ∀ (n i : Nat), i < cap →
      (alreadyEnqueued cap q pc n i = true ↔
        ∃ k, k < n ∧ (q.getD ((i + k) % cap) zeroOrder).pc = pc) := by
  intro n
  induction n with
  | zero => intro i _; simp [alreadyEnqueued]
  | succ n ih =>
    intro i hi
    have hnext : (if i + 1 = cap then 0 else i + 1) < cap := by
      by_cases h1 : i + 1 = cap
      · rw [if_pos h1]; omega
      · rw [if_neg h1]; omega
    have hshift : ∀ k, ((if i + 1 = cap then 0 else i + 1) + k) % cap = (i + (k + 1)) % cap := by
      intro k
      rw [wrap_eq_mod hi, Nat.mod_add_mod]
      congr 1; omega
    unfold alreadyEnqueued
    by_cases hd : (q.getD i zeroOrder).pc = pc
    · rw [if_pos hd]
      refine ⟨fun _ => ⟨0, by omega, ?_⟩, fun _ => rfl⟩
      rw [Nat.add_zero, Nat.mod_eq_of_lt hi]; exact hd
    · rw [if_neg hd, ih _ hnext]
      constructor
      · rintro ⟨k, hk, hpc⟩
        exact ⟨k + 1, by omega, by rw [← hshift]; exact hpc⟩
      · rintro ⟨k, hk, hpc⟩
        cases k with
        | zero =>
          rw [Nat.add_zero, Nat.mod_eq_of_lt hi] at hpc
          exact absurd hpc hd
        | succ k => exact ⟨k, by omega, by rw [hshift]; exact hpc⟩

theorem queued_iff_scan (cap : Nat) (s : JitState) (pc : Nat)
    (hd : s.compilerWorkDequeueIndex < cap) :
    queued cap s pc ↔
      alreadyEnqueued cap s.compilerWorkQueue pc s.compilerQueueLength.toNat
        s.compilerWorkDequeueIndex = true := by
  rw [alreadyEnqueued_iff cap _ pc _ _ hd]
  unfold queued liveIndex slot
  constructor
  · rintro ⟨k, hk, h⟩; exact ⟨k, by omega, h⟩
  · rintro ⟨k, hk, h⟩; exact ⟨k, by omega, h⟩

/-! `dvmCompilerWorkEnqueue` -/

theorem enqueue_full (cap self pc : Nat) (kind : WorkOrderKind) (info : Nat) (s : JitState)
    (h : s.compilerQueueLength = (cap : Int) ∨ s.codeCacheFull = true) :
    dvmCompilerWorkEnqueue cap self pc kind info s = (false, s) := by
  unfold dvmCompilerWorkEnqueue
  rw [if_pos h]

theorem enqueue_duplicate (cap self pc : Nat) (kind : WorkOrderKind) (info : Nat)
    (s : JitState)
    (h : ¬ (s.compilerQueueLength = (cap : Int) ∨ s.codeCacheFull = true))
    (hscan : alreadyEnqueued cap s.compilerWorkQueue pc s.compilerQueueLength.toNat
      s.compilerWorkDequeueIndex = true) :
    dvmCompilerWorkEnqueue cap self pc kind info s = (true, s) := by
  unfold dvmCompilerWorkEnqueue
  rw [if_neg h, if_pos hscan]

theorem enqueue_accept (cap self pc : Nat) (kind : WorkOrderKind) (info : Nat)
    (s : JitState)
    (h : ¬ (s.compilerQueueLength = (cap : Int) ∨ s.codeCacheFull = true))
    (hscan : ¬ alreadyEnqueued cap s.compilerWorkQueue pc s.compilerQueueLength.toNat
      s.compilerWorkDequeueIndex = true) :
    dvmCompilerWorkEnqueue cap self pc kind info s =
      (true, { s with
        compilerWorkQueue := s.compilerWorkQueue.set s.compilerWorkEnqueueIndex
          { pc := pc, kind := kind, info := info,
            result := { (slot s s.compilerWorkEnqueueIndex).result with
              codeAddress := 0,
              discardResult := (kind == kWorkOrderTraceDebug || kind == kWorkOrderICPatch),
              requestingThread := self } },
        compilerWorkEnqueueIndex :=
          if s.compilerWorkEnqueueIndex + 1 = cap then 0 else s.compilerWorkEnqueueIndex + 1,
        compilerQueueLength := s.compilerQueueLength + 1,
        calls := s.calls ++ [Call.signalActivity] }) := by
  unfold dvmCompilerWorkEnqueue
  rw [if_neg h, if_neg hscan]

/-- C1 (as the code has it): on a queue state, `dvmCompilerWorkEnqueue` returns
false exactly when the queue is full or the code cache is marked full; when
neither holds and a live slot already has the address, it returns true and
leaves the state as it was. -/
theorem enqueue_false_iff (cap self pc : Nat) (kind : WorkOrderKind) (info : Nat)
    (s : JitState) (hq : QueueState cap s) :
    ((dvmCompilerWorkEnqueue cap self pc kind info s).1 = false ↔
      (s.compilerQueueLength = (cap : Int) ∨ s.codeCacheFull = true)) ∧
    (s.compilerQueueLength ≠ (cap : Int) → s.codeCacheFull = false → queued cap s pc →
      dvmCompilerWorkEnqueue cap self pc kind info s = (true, s)) := by
  constructor
  · by_cases h : s.compilerQueueLength = (cap : Int) ∨ s.codeCacheFull = true
    · simp [enqueue_full cap self pc kind info s h, h]
    · by_cases hscan : alreadyEnqueued cap s.compilerWorkQueue pc
          s.compilerQueueLength.toNat s.compilerWorkDequeueIndex = true
      · rw [enqueue_duplicate cap self pc kind info s h hscan]; simp [h]
      · rw [enqueue_accept cap self pc kind info s h hscan]; simp [h]
  · intro hlen hfull hdup
    have h : ¬ (s.compilerQueueLength = (cap : Int) ∨ s.codeCacheFull = true) := by
      rw [hfull]; simp [hlen]
    exact enqueue_duplicate cap self pc kind info s h
      ((queued_iff_scan cap s pc hq.2.2.1).1 hdup)

theorem onceQueued_queueState : QueueState 4 onceQueued := by
  unfold QueueState; decide

theorem onceQueued_queued : queued 4 onceQueued 7 :=
  ⟨0, by decide, by decide⟩

/-- C1 witness: the queue holding the address `7`, asked for `7` again. -/
theorem enqueue_false_iff_witness :
    QueueState 4 onceQueued ∧
    (((dvmCompilerWorkEnqueue 4 1 7 kWorkOrderTrace 9 onceQueued).1 = false ↔
      (onceQueued.compilerQueueLength = ((4 : Nat) : Int) ∨
        onceQueued.codeCacheFull = true)) ∧
    (onceQueued.compilerQueueLength ≠ ((4 : Nat) : Int) → onceQueued.codeCacheFull = false →
      queued 4 onceQueued 7 →
      dvmCompilerWorkEnqueue 4 1 7 kWorkOrderTrace 9 onceQueued = (true, onceQueued))) :=
  ⟨onceQueued_queueState,
   enqueue_false_iff 4 1 7 kWorkOrderTrace 9 onceQueued onceQueued_queueState⟩

/-- C1 fails as stated: after the address `7` was accepted once, with no dequeue
in between, the second `dvmCompilerWorkEnqueue` of `7` returns true although a
live slot has that address. -/
theorem enqueue_duplicate_not_false :
    QueueState 4 onceQueued ∧
    ¬ ((dvmCompilerWorkEnqueue 4 1 7 kWorkOrderTrace 9 onceQueued).1 = false ↔
        (onceQueued.compilerQueueLength = ((4 : Nat) : Int) ∨
          onceQueued.codeCacheFull = true ∨ queued 4 onceQueued 7)) := by
  refine ⟨onceQueued_queueState, ?_⟩
  intro h
  have h1 : (dvmCompilerWorkEnqueue 4 1 7 kWorkOrderTrace 9 onceQueued).1 = false :=
    h.2 (Or.inr (Or.inr onceQueued_queued))
  revert h1
  decide

/-- C2: when the queue is full, or the code cache is marked full, or a live slot
already has the address, `dvmCompilerWorkEnqueue` leaves the whole state as it
was: every slot, both indices, the length, the high water mark, the maximum
observed length, `codeCacheFull` and the log of calls (no signal). -/
theorem enqueue_reject_unchanged (cap self pc : Nat) (kind : WorkOrderKind) (info : Nat)
    (s : JitState) (hq : QueueState cap s)
    (h : s.compilerQueueLength = (cap : Int) ∨ s.codeCacheFull = true ∨ queued cap s pc) :
    (dvmCompilerWorkEnqueue cap self pc kind info s).2 = s := by
  by_cases hfull : s.compilerQueueLength = (cap : Int) ∨ s.codeCacheFull = true
  · rw [enqueue_full cap self pc kind info s hfull]
  · have hdup : queued cap s pc := by
      rcases h with h | h | h
      · exact absurd (Or.inl h) hfull
      · exact absurd (Or.inr h) hfull
      · exact h
    rw [enqueue_duplicate cap self pc kind info s hfull
      ((queued_iff_scan cap s pc hq.2.2.1).1 hdup)]

/-- C2 witness: the queue holding the address `7`, asked for `7` again. -/
theorem enqueue_reject_unchanged_witness :
    QueueState 4 onceQueued ∧
    (onceQueued.compilerQueueLength = ((4 : Nat) : Int) ∨ onceQueued.codeCacheFull = true ∨
      queued 4 onceQueued 7) ∧
    (dvmCompilerWorkEnqueue 4 2 7 kWorkOrderICPatch 11 onceQueued).2 = onceQueued :=
  ⟨onceQueued_queueState, Or.inr (Or.inr onceQueued_queued),
   enqueue_reject_unchanged 4 2 7 kWorkOrderICPatch 11 onceQueued onceQueued_queueState
     (Or.inr (Or.inr onceQueued_queued))⟩

/-- C3: on a queue state that is not full, with the code cache not marked full
and no live slot holding `pc`, `dvmCompilerWorkEnqueue` returns true; the slot
at the old enqueue index then holds `pc`, `kind`, `info`, a `NULL` code address
and `discardResult = (kind is TraceDebug or ICPatch)`; the enqueue index is the
old one plus one modulo the capacity, the length is the old one plus one, and
the dequeue index and every other slot are as before. -/
theorem enqueue_accept_post (cap self pc : Nat) (kind : WorkOrderKind) (info : Nat)
    (s : JitState) (hq : QueueState cap s)
    (hlen : s.compilerQueueLength < (cap : Int)) (hfull : s.codeCacheFull = false)
    (hnew : ¬ queued cap s pc) :
    (dvmCompilerWorkEnqueue cap self pc kind info s).1 = true ∧
    (slot (dvmCompilerWorkEnqueue cap self pc kind info s).2
        s.compilerWorkEnqueueIndex).pc = pc ∧
    (slot (dvmCompilerWorkEnqueue cap self pc kind info s).2
        s.compilerWorkEnqueueIndex).kind = kind ∧
    (slot (dvmCompilerWorkEnqueue cap self pc kind info s).2
        s.compilerWorkEnqueueIndex).info = info ∧
    (slot (dvmCompilerWorkEnqueue cap self pc kind info s).2
        s.compilerWorkEnqueueIndex).result.codeAddress = 0 ∧
    ((slot (dvmCompilerWorkEnqueue cap self pc kind info s).2
        s.compilerWorkEnqueueIndex).result.discardResult = true ↔
      (kind = kWorkOrderTraceDebug ∨ kind = kWorkOrderICPatch)) ∧
    (dvmCompilerWorkEnqueue cap self pc kind info s).2.compilerWorkEnqueueIndex =
      (s.compilerWorkEnqueueIndex + 1) % cap ∧
    (dvmCompilerWorkEnqueue cap self pc kind info s).2.compilerQueueLength =
      s.compilerQueueLength + 1 ∧
    (dvmCompilerWorkEnqueue cap self pc kind info s).2.compilerWorkDequeueIndex =
      s.compilerWorkDequeueIndex ∧
    (∀ j, j ≠ s.compilerWorkEnqueueIndex →
      slot (dvmCompilerWorkEnqueue cap self pc kind info s).2 j = slot s j) := by
  obtain ⟨hsize, henq, hdeq, _, _⟩ := hq
  have h : ¬ (s.compilerQueueLength = (cap : Int) ∨ s.codeCacheFull = true) := by
    rw [hfull]; simp; omega
  have hscan : ¬ alreadyEnqueued cap s.compilerWorkQueue pc s.compilerQueueLength.toNat
      s.compilerWorkDequeueIndex = true :=
    fun hs => hnew ((queued_iff_scan cap s pc hdeq).2 hs)
  have hin : s.compilerWorkEnqueueIndex < s.compilerWorkQueue.length := by omega
  rw [enqueue_accept cap self pc kind info s h hscan]
  refine ⟨rfl, ?_, ?_, ?_, ?_, ?_, ?_, rfl, rfl, ?_⟩
  · simp [slot, getD_set, hin]
  · simp [slot, getD_set, hin]
  · simp [slot, getD_set, hin]
  · simp [slot, getD_set, hin]
  · simp [slot, getD_set, hin]
  · exact wrap_eq_mod henq
  · intro j hj
    have hj2 : ¬ (s.compilerWorkEnqueueIndex = j ∧
        s.compilerWorkEnqueueIndex < s.compilerWorkQueue.length) := fun hc => hj hc.1.symm
    simp only [slot, getD_set, if_neg hj2]

theorem startJit_queueState : QueueState 4 (startJit 4) := by
  unfold QueueState; decide

theorem startJit_not_queued (pc : Nat) : ¬ queued 4 (startJit 4) pc := by
  rintro ⟨k, hk, _⟩
  have h0 : (startJit 4).compilerQueueLength = 0 := by decide
  rw [h0] at hk
  omega

/-- C3 witness: the first request on the queue of four slots after start-up. -/
theorem enqueue_accept_post_witness :
    QueueState 4 (startJit 4) ∧
    (startJit 4).compilerQueueLength < ((4 : Nat) : Int) ∧
    (startJit 4).codeCacheFull = false ∧
    ¬ queued 4 (startJit 4) 7 ∧
    (dvmCompilerWorkEnqueue 4 1 7 kWorkOrderICPatch 9 (startJit 4)).1 = true ∧
    (slot (dvmCompilerWorkEnqueue 4 1 7 kWorkOrderICPatch 9 (startJit 4)).2
        (startJit 4).compilerWorkEnqueueIndex).pc = 7 :=
  have h := enqueue_accept_post 4 1 7 kWorkOrderICPatch 9 (startJit 4) startJit_queueState
    (by decide) (by decide) (startJit_not_queued 7)
  ⟨startJit_queueState, by decide, by decide, startJit_not_queued 7, h.1, h.2.1⟩

/-! `workDequeue` -/

/-- C4: with a positive length and the dequeue index inside the array,
`workDequeue` returns the slot at the old dequeue index as it was; afterwards
that slot has kind `kWorkOrderInvalid` (its other fields kept), the dequeue
index is the old one plus one modulo the capacity, the length is one less, the
enqueue index and every other slot are as before, and the "empty" condition is
signalled exactly when the new length is zero. -/
theorem workDequeue_post (cap : Nat) (s : JitState)
    (hsize : s.compilerWorkQueue.length = cap)
    (hdeq : s.compilerWorkDequeueIndex < cap) (_hlen : 0 < s.compilerQueueLength) :
    (workDequeue cap s).1 = slot s s.compilerWorkDequeueIndex ∧
    slot (workDequeue cap s).2 s.compilerWorkDequeueIndex =
      { slot s s.compilerWorkDequeueIndex with kind := kWorkOrderInvalid } ∧
    (workDequeue cap s).2.compilerWorkDequeueIndex =
      (s.compilerWorkDequeueIndex + 1) % cap ∧
    (workDequeue cap s).2.compilerQueueLength = s.compilerQueueLength - 1 ∧
    (workDequeue cap s).2.compilerWorkEnqueueIndex = s.compilerWorkEnqueueIndex ∧
    (∀ j, j ≠ s.compilerWorkDequeueIndex → slot (workDequeue cap s).2 j = slot s j) ∧
    ((workDequeue cap s).2.compilerQueueLength = 0 →
      (workDequeue cap s).2.calls = s.calls ++ [Call.signalEmpty]) ∧
    ((workDequeue cap s).2.compilerQueueLength ≠ 0 →
      (workDequeue cap s).2.calls = s.calls) := by
  have hin : s.compilerWorkDequeueIndex < s.compilerWorkQueue.length := by omega
  refine ⟨rfl, ?_, ?_, rfl, rfl, ?_, ?_, ?_⟩
  · simp [workDequeue, slot, getD_set, hin]
  · exact wrap_eq_mod hdeq
  · intro j hj
    have hj2 : ¬ (s.compilerWorkDequeueIndex = j ∧
        s.compilerWorkDequeueIndex < s.compilerWorkQueue.length) := fun hc => hj hc.1.symm
    simp only [workDequeue, slot, getD_set, if_neg hj2]
  · intro h0
    have h1 : s.compilerQueueLength - 1 = 0 := h0
    simp only [workDequeue, if_pos h1]
  · intro h0
    have h1 : ¬ s.compilerQueueLength - 1 = 0 := h0
    simp only [workDequeue, if_neg h1]

/-- C4 witness: the dequeue of the only request of `onceQueued`. -/
theorem workDequeue_post_witness :
    onceQueued.compilerWorkQueue.length = 4 ∧
    onceQueued.compilerWorkDequeueIndex < 4 ∧
    0 < onceQueued.compilerQueueLength ∧
    (workDequeue 4 onceQueued).1 = slot onceQueued onceQueued.compilerWorkDequeueIndex ∧
    (workDequeue 4 onceQueued).1.kind = kWorkOrderTrace ∧
    (workDequeue 4 onceQueued).2.calls =
      onceQueued.calls ++ [Call.signalEmpty] :=
  have h := workDequeue_post 4 onceQueued (by decide) (by decide) (by decide)
  ⟨by decide, by decide, by decide, h.1, by decide, h.2.2.2.2.2.2.1 (by decide)⟩

/-! Live slots under the operations -/

theorem liveIndex_inj {cap d a b : Nat} (ha : a < cap) (hb : b < cap)
    (h : (d + a) % cap = (d + b) % cap) : a = b := by
  have h1 : a ≡ b [MOD cap] := Nat.ModEq.add_left_cancel' d h
  exact Nat.ModEq.eq_of_lt_of_lt h1 ha hb

theorem startup_state (cap : Nat) (env : StartupEnv) (s0 s : JitState)
    (h : dvmCompilerStartup cap env s0 = (true, s)) :
    s.compilerWorkQueue = List.replicate cap zeroOrder ∧
    s.compilerWorkEnqueueIndex = 0 ∧ s.compilerWorkDequeueIndex = 0 ∧
    s.compilerQueueLength = 0 ∧ s.compilerHighWater = 0 ∧
    s.haltCompilerThread = false := by
  unfold dvmCompilerStartup at h
  by_cases h1 : env.archInit = false
  · simp [h1] at h
  · by_cases h2 : (if s0.codeCache = 0 then dvmCompilerSetupCodeCache env s0
        else (true, s0)).1 = false
    · simp [h1, h2] at h
    · by_cases h3 : env.heapInit = false
      · simp [h1, h2, h3] at h
      · by_cases h4 : env.createThread = false
        · simp [h1, h2, h3, h4] at h
        · dsimp only at h
          rw [if_neg h1, if_neg h2, if_neg h3, if_neg h4] at h
          have h5 := (Prod.mk.inj h).2
          subst h5
          simp

theorem liveSlots_nil (cap : Nat) (s : JitState) (h : s.compilerQueueLength = 0) :
    liveSlots cap s = [] := by
  simp [liveSlots, h]

theorem enqueue_cases (cap self pc : Nat) (kind : WorkOrderKind) (info : Nat)
    (s : JitState) :
    (dvmCompilerWorkEnqueue cap self pc kind info s).2 = s ∨
    (¬ (s.compilerQueueLength = (cap : Int) ∨ s.codeCacheFull = true) ∧
     ¬ alreadyEnqueued cap s.compilerWorkQueue pc s.compilerQueueLength.toNat
        s.compilerWorkDequeueIndex = true ∧
     (dvmCompilerWorkEnqueue cap self pc kind info s).2 =
      { s with
        compilerWorkQueue :=
          s.compilerWorkQueue.set s.compilerWorkEnqueueIndex (newOrder self pc kind info s),
        compilerWorkEnqueueIndex :=
          if s.compilerWorkEnqueueIndex + 1 = cap then 0 else s.compilerWorkEnqueueIndex + 1,
        compilerQueueLength := s.compilerQueueLength + 1,
        calls := s.calls ++ [Call.signalActivity] }) := by
  by_cases h : s.compilerQueueLength = (cap : Int) ∨ s.codeCacheFull = true
  · left; rw [enqueue_full cap self pc kind info s h]
  · by_cases hscan : alreadyEnqueued cap s.compilerWorkQueue pc
        s.compilerQueueLength.toNat s.compilerWorkDequeueIndex = true
    · left; rw [enqueue_duplicate cap self pc kind info s h hscan]
    · right
      refine ⟨h, hscan, ?_⟩
      rw [enqueue_accept cap self pc kind info s h hscan]
      rfl

theorem lengthInv_enqueue (cap self pc : Nat) (kind : WorkOrderKind) (info : Nat)
    (s : JitState) (h : LengthInv cap s) :
    LengthInv cap (dvmCompilerWorkEnqueue cap self pc kind info s).2 := by
  rcases enqueue_cases cap self pc kind info s with h1 | ⟨hfull, _, h1⟩
  · rw [h1]; exact h
  · rw [h1]
    unfold LengthInv at h ⊢
    have hne : s.compilerQueueLength ≠ (cap : Int) := fun hc => hfull (Or.inl hc)
    simp only
    omega

theorem lengthInv_dequeue (cap : Nat) (s : JitState) (h : LengthInv cap s)
    (hpos : 0 < s.compilerQueueLength) : LengthInv cap (workDequeue cap s).2 := by
  unfold LengthInv at h ⊢
  simp only [workDequeue]
  omega

theorem lengthInv_reset (cap self : Nat) (s : JitState) :
    LengthInv cap (resetCodeCache cap self s) := by
  unfold LengthInv
  simp only [resetCodeCache]
  omega

theorem lengthInv_step (cap : Nat) (r r1 : QueueRun) (op : QueueOp)
    (h : LengthInv cap r.jit) (hstep : runStep cap r op = some r1) :
    LengthInv cap r1.jit := by
  cases op with
  | enqueue self pc kind info =>
    simp only [runStep, Option.some.injEq] at hstep
    subst hstep
    exact lengthInv_enqueue cap self pc kind info r.jit h
  | dequeue =>
    simp only [runStep] at hstep
    split_ifs at hstep with hpos
    simp only [Option.some.injEq] at hstep
    subst hstep
    exact lengthInv_dequeue cap r.jit h hpos
  | reset self =>
    simp only [runStep, Option.some.injEq] at hstep
    subst hstep
    exact lengthInv_reset cap self r.jit

theorem lengthInv_run (cap : Nat) (ops : List QueueOp) :
    ∀ (r r1 : QueueRun), LengthInv cap r.jit → runFrom cap r ops = some r1 →
      LengthInv cap r1.jit := by
  induction ops with
  | nil =>
    intro r r1 h hrun
    simp only [runFrom, Option.some.injEq] at hrun
    subst hrun; exact h
  | cons op ops ih =>
    intro r r1 h hrun
    simp only [runFrom] at hrun
    cases hstep : runStep cap r op with
    | none => rw [hstep] at hrun; exact absurd hrun (by simp)
    | some r2 =>
      rw [hstep] at hrun
      exact ih r2 r1 (lengthInv_step cap r r2 op h hstep) hrun

theorem consistent_startup (cap : Nat) (hcap : 0 < cap) (env : StartupEnv)
    (s0 s : JitState) (h : dvmCompilerStartup cap env s0 = (true, s)) :
    Consistent cap s := by
  obtain ⟨hq, he, hd, hl, _, _⟩ := startup_state cap env s0 s h
  unfold Consistent QueueState
  rw [hq, he, hd, hl]
  simp [hcap]

theorem consistent_reset (cap self : Nat) (hcap : 0 < cap) (s : JitState) :
    Consistent cap (resetCodeCache cap self s) := by
  unfold Consistent QueueState
  simp [resetCodeCache, hcap]

theorem consistent_enqueue (cap self pc : Nat) (kind : WorkOrderKind) (info : Nat)
    (s : JitState) (h : Consistent cap s) :
    Consistent cap (dvmCompilerWorkEnqueue cap self pc kind info s).2 := by
  rcases enqueue_cases cap self pc kind info s with h1 | ⟨hfull, _, h1⟩
  · rw [h1]; exact h
  · rw [h1]
    obtain ⟨⟨hsize, henq, hdeq, h0, hle⟩, hidx⟩ := h
    have hne : s.compilerQueueLength ≠ (cap : Int) := fun hc => hfull (Or.inl hc)
    have hn : (s.compilerQueueLength + 1).toNat = s.compilerQueueLength.toNat + 1 := by omega
    refine ⟨⟨?_, ?_, hdeq, ?_, ?_⟩, ?_⟩
    · simp only [List.length_set]; exact hsize
    · show (if s.compilerWorkEnqueueIndex + 1 = cap then 0
        else s.compilerWorkEnqueueIndex + 1) < cap
      rw [wrap_eq_mod henq]; exact Nat.mod_lt _ (by omega)
    · show 0 ≤ s.compilerQueueLength + 1
      omega
    · show s.compilerQueueLength + 1 ≤ (cap : Int)
      omega
    · show (if s.compilerWorkEnqueueIndex + 1 = cap then 0
        else s.compilerWorkEnqueueIndex + 1) =
        (s.compilerWorkDequeueIndex + (s.compilerQueueLength + 1).toNat) % cap
      rw [wrap_eq_mod henq, hn, hidx, Nat.mod_add_mod, Nat.add_assoc]

theorem consistent_dequeue (cap : Nat) (s : JitState) (h : Consistent cap s)
    (hpos : 0 < s.compilerQueueLength) : Consistent cap (workDequeue cap s).2 := by
  obtain ⟨⟨hsize, henq, hdeq, h0, hle⟩, hidx⟩ := h
  have hn : s.compilerQueueLength.toNat = (s.compilerQueueLength - 1).toNat + 1 := by omega
  refine ⟨⟨?_, henq, ?_, ?_, ?_⟩, ?_⟩
  · simp only [workDequeue, List.length_set]; exact hsize
  · show (if s.compilerWorkDequeueIndex + 1 = cap then 0
      else s.compilerWorkDequeueIndex + 1) < cap
    rw [wrap_eq_mod hdeq]; exact Nat.mod_lt _ (by omega)
  · show 0 ≤ s.compilerQueueLength - 1
    omega
  · show s.compilerQueueLength - 1 ≤ (cap : Int)
    omega
  · show s.compilerWorkEnqueueIndex =
      ((if s.compilerWorkDequeueIndex + 1 = cap then 0
        else s.compilerWorkDequeueIndex + 1) + (s.compilerQueueLength - 1).toNat) % cap
    rw [wrap_eq_mod hdeq, Nat.mod_add_mod, hidx, hn]
    congr 1; omega

theorem liveSlots_enqueue (cap self pc : Nat) (kind : WorkOrderKind) (info : Nat)
    (s : JitState) (h : Consistent cap s)
    (hfull : ¬ (s.compilerQueueLength = (cap : Int) ∨ s.codeCacheFull = true))
    (hscan : ¬ alreadyEnqueued cap s.compilerWorkQueue pc s.compilerQueueLength.toNat
        s.compilerWorkDequeueIndex = true) :
    liveSlots cap (dvmCompilerWorkEnqueue cap self pc kind info s).2 =
      liveSlots cap s ++ [newOrder self pc kind info s] := by
  obtain ⟨⟨hsize, henq, hdeq, h0, hle⟩, hidx⟩ := h
  have hne : s.compilerQueueLength ≠ (cap : Int) := fun hc => hfull (Or.inl hc)
  have hn : (s.compilerQueueLength + 1).toNat = s.compilerQueueLength.toNat + 1 := by omega
  have hin : s.compilerWorkEnqueueIndex < s.compilerWorkQueue.length := by omega
  rw [enqueue_accept cap self pc kind info s hfull hscan]
  show List.map (fun k => (s.compilerWorkQueue.set s.compilerWorkEnqueueIndex
        (newOrder self pc kind info s)).getD ((s.compilerWorkDequeueIndex + k) % cap) zeroOrder)
      (List.range (s.compilerQueueLength + 1).toNat) = _
  rw [hn, List.range_succ, List.map_append]
  congr 1
  · apply List.map_congr_left
    intro k hk
    rw [List.mem_range] at hk
    have hk2 : ¬ (s.compilerWorkEnqueueIndex = (s.compilerWorkDequeueIndex + k) % cap ∧
        s.compilerWorkEnqueueIndex < s.compilerWorkQueue.length) := by
      rintro ⟨hc, _⟩
      rw [hidx] at hc
      have := liveIndex_inj (by omega) (by omega) hc
      omega
    rw [getD_set, if_neg hk2]
    rfl
  · simp only [List.map_cons, List.map_nil]
    rw [getD_set, if_pos ⟨hidx, hin⟩]

theorem liveSlots_dequeue (cap : Nat) (s : JitState) (h : Consistent cap s)
    (hpos : 0 < s.compilerQueueLength) :
    liveSlots cap s = (workDequeue cap s).1 :: liveSlots cap (workDequeue cap s).2 := by
  obtain ⟨⟨hsize, henq, hdeq, h0, hle⟩, hidx⟩ := h
  have hn : s.compilerQueueLength.toNat = (s.compilerQueueLength - 1).toNat + 1 := by omega
  show List.map (fun k => s.compilerWorkQueue.getD ((s.compilerWorkDequeueIndex + k) % cap)
        zeroOrder) (List.range s.compilerQueueLength.toNat) =
    s.compilerWorkQueue.getD s.compilerWorkDequeueIndex zeroOrder ::
      List.map (fun k => (s.compilerWorkQueue.set s.compilerWorkDequeueIndex
          { slot s s.compilerWorkDequeueIndex with kind := kWorkOrderInvalid }).getD
          (((if s.compilerWorkDequeueIndex + 1 = cap then 0
            else s.compilerWorkDequeueIndex + 1) + k) % cap) zeroOrder)
        (List.range (s.compilerQueueLength - 1).toNat)
  rw [hn, List.range_succ_eq_map, List.map_cons, List.map_map, Nat.add_zero,
    Nat.mod_eq_of_lt hdeq]
  congr 1
  apply List.map_congr_left
  intro k hk
  rw [List.mem_range] at hk
  have hshift : ((if s.compilerWorkDequeueIndex + 1 = cap then 0
      else s.compilerWorkDequeueIndex + 1) + k) % cap =
      (s.compilerWorkDequeueIndex + (k + 1)) % cap := by
    rw [wrap_eq_mod hdeq, Nat.mod_add_mod]
    congr 1; omega
  have hk2 : ¬ (s.compilerWorkDequeueIndex = (s.compilerWorkDequeueIndex + (k + 1)) % cap ∧
      s.compilerWorkDequeueIndex < s.compilerWorkQueue.length) := by
    rintro ⟨hc, _⟩
    have hc2 : (s.compilerWorkDequeueIndex + 0) % cap =
        (s.compilerWorkDequeueIndex + (k + 1)) % cap := by
      rw [Nat.add_zero, Nat.mod_eq_of_lt hdeq]; exact hc
    have := liveIndex_inj (by omega) (by omega) hc2
    omega
  rw [hshift, getD_set, if_neg hk2]
  rfl

/-! Runs -/

theorem run_invariant (cap : Nat) (P : QueueRun → Prop) (ok : QueueOp → Bool)
    (hstep : ∀ r r1 op, P r → ok op = true → runStep cap r op = some r1 → P r1)
    (ops : List QueueOp) :
    ∀ (r r1 : QueueRun), P r → ops.all ok = true → runFrom cap r ops = some r1 → P r1 := by
  induction ops with
  | nil =>
    intro r r1 h _ hrun
    simp only [runFrom, Option.some.injEq] at hrun
    subst hrun; exact h
  | cons op ops ih =>
    intro r r1 h hok hrun
    simp only [List.all_cons, Bool.and_eq_true] at hok
    simp only [runFrom] at hrun
    cases hs : runStep cap r op with
    | none => rw [hs] at hrun; exact absurd hrun (by simp)
    | some r2 =>
      rw [hs] at hrun
      exact ih r2 r1 (hstep r r2 op h hok.1 hs) hok.2 hrun

theorem all_true (ops : List QueueOp) : ops.all (fun _ => true) = true := by
  induction ops with
  | nil => rfl
  | cons op ops ih => simp

theorem fifoInv_step (cap : Nat) (r r1 : QueueRun) (op : QueueOp) (h : FifoInv cap r)
    (hop : (!op.isReset) = true) (hstep : runStep cap r op = some r1) : FifoInv cap r1 := by
  obtain ⟨hc, hw⟩ := h
  cases op with
  | enqueue self pc kind info =>
    simp only [runStep, Option.some.injEq] at hstep
    subst hstep
    refine ⟨consistent_enqueue cap self pc kind info r.jit hc, ?_⟩
    rcases enqueue_cases cap self pc kind info r.jit with h1 | ⟨hfull, hscan, h1⟩
    · simp only [h1, if_true]; exact hw
    · have hl : (dvmCompilerWorkEnqueue cap self pc kind info r.jit).2.compilerQueueLength ≠
          r.jit.compilerQueueLength := by
        rw [h1]; show r.jit.compilerQueueLength + 1 ≠ r.jit.compilerQueueLength; omega
      simp only [if_neg hl]
      rw [liveSlots_enqueue cap self pc kind info r.jit hc hfull hscan, hw]
      simp [CompilerWorkOrder.request, newOrder]
  | dequeue =>
    simp only [runStep] at hstep
    split_ifs at hstep with hpos
    simp only [Option.some.injEq] at hstep
    subst hstep
    refine ⟨consistent_dequeue cap r.jit hc hpos, ?_⟩
    show r.written = _
    rw [hw, liveSlots_dequeue cap r.jit hc hpos]
    simp
  | reset self => simp [QueueOp.isReset] at hop

theorem degenerate_step (r r1 : QueueRun) (op : QueueOp)
    (h : r.jit.compilerQueueLength = 0 ∧ r.written = [] ∧ r.served = [])
    (_hop : (fun _ => true) op = true) (hstep : runStep 0 r op = some r1) :
    r1.jit.compilerQueueLength = 0 ∧ r1.written = [] ∧ r1.served = [] := by
  obtain ⟨hl, hw, hs⟩ := h
  cases op with
  | enqueue self pc kind info =>
    simp only [runStep, Option.some.injEq] at hstep
    subst hstep
    have hfull : r.jit.compilerQueueLength = ((0 : Nat) : Int) ∨ r.jit.codeCacheFull = true :=
      Or.inl hl
    simp only [enqueue_full 0 self pc kind info r.jit hfull, if_true]
    exact ⟨hl, hw, hs⟩
  | dequeue =>
    simp only [runStep] at hstep
    split_ifs at hstep with hpos
    omega
  | reset self =>
    simp only [runStep, Option.some.injEq] at hstep
    subst hstep
    exact ⟨rfl, hw, hs⟩

/-- C5: from the state `dvmCompilerStartup` leaves, along any run of
`dvmCompilerWorkEnqueue` and `workDequeue` calls (each dequeue with a positive
length) without reset, the requests returned by the dequeues are, in order, a
beginning of the requests for which enqueue wrote a slot; the rest of them are
the requests in the live slots. -/
theorem dequeue_order_fifo (cap : Nat) (env : StartupEnv) (s0 s : JitState)
    (ops : List QueueOp) (r : QueueRun)
    (hstart : dvmCompilerStartup cap env s0 = (true, s))
    (hops : noReset ops = true)
    (hrun : runFrom cap (QueueRun.start s) ops = some r) :
    r.served.map CompilerWorkOrder.request <+: r.written ∧
    r.written = r.served.map CompilerWorkOrder.request ++
      (liveSlots cap r.jit).map CompilerWorkOrder.request := by
  have hl := (startup_state cap env s0 s hstart).2.2.2.1
  have hw : r.written = r.served.map CompilerWorkOrder.request ++
      (liveSlots cap r.jit).map CompilerWorkOrder.request := by
    rcases Nat.eq_zero_or_pos cap with h0 | hcap
    · subst h0
      have hfin := run_invariant 0
        (fun r => r.jit.compilerQueueLength = 0 ∧ r.written = [] ∧ r.served = [])
        (fun _ => true) degenerate_step ops (QueueRun.start s) r ⟨hl, rfl, rfl⟩
        (all_true ops) hrun
      rw [hfin.2.1, hfin.2.2, liveSlots_nil 0 r.jit hfin.1]
      rfl
    · have hinit : FifoInv cap (QueueRun.start s) := by
        refine ⟨consistent_startup cap hcap env s0 s hstart, ?_⟩
        show [] = List.map CompilerWorkOrder.request ([] ++ liveSlots cap s)
        rw [liveSlots_nil cap s hl]; rfl
      have hfin := run_invariant cap (FifoInv cap) (fun op => !op.isReset)
        (fifoInv_step cap) ops (QueueRun.start s) r hinit hops hrun
      rw [hfin.2, List.map_append]
  exact ⟨⟨_, hw.symm⟩, hw⟩

theorem startJit_startup : dvmCompilerStartup 4 goodEnv (blankJit 4) = (true, startJit 4) := by
  decide

theorem fifoRun_run : runFrom 4 (QueueRun.start (startJit 4)) fifoOps = some fifoRun := by
  decide

/-- C5 witness: the run `fifoOps` serves the addresses 7, 8, 9 out of the
written 7, 8, 9, 10, 11. -/
theorem dequeue_order_fifo_witness :
    (dvmCompilerStartup 4 goodEnv (blankJit 4) = (true, startJit 4) ∧
      noReset fifoOps = true ∧
      runFrom 4 (QueueRun.start (startJit 4)) fifoOps = some fifoRun) ∧
    fifoRun.served.map CompilerWorkOrder.request =
      [(7, kWorkOrderTrace, 70), (8, kWorkOrderICPatch, 80), (9, kWorkOrderTraceDebug, 90)] ∧
    (fifoRun.served.map CompilerWorkOrder.request <+: fifoRun.written ∧
      fifoRun.written = fifoRun.served.map CompilerWorkOrder.request ++
        (liveSlots 4 fifoRun.jit).map CompilerWorkOrder.request) :=
  ⟨⟨startJit_startup, by decide, fifoRun_run⟩, by decide,
   dequeue_order_fifo 4 goodEnv (blankJit 4) (startJit 4) fifoOps fifoRun
     startJit_startup (by decide) fifoRun_run⟩

theorem mixedRun_run : runFrom 4 (QueueRun.start (startJit 4)) mixedOps = some mixedRun := by
  decide

theorem lengthInv_startup (cap : Nat) (env : StartupEnv) (s0 s : JitState)
    (h : dvmCompilerStartup cap env s0 = (true, s)) : LengthInv cap s := by
  have hl := (startup_state cap env s0 s h).2.2.2.1
  unfold LengthInv
  rw [hl]
  omega

/-- C6: the length is between `0` and the capacity in the state
`dvmCompilerStartup` sets up; `dvmCompilerWorkEnqueue` (any arguments),
`workDequeue` (called with a positive length) and `resetCodeCache` each keep it
so; hence it holds after every run of these operations. -/
theorem capacity_invariant (cap : Nat) :
    (∀ env s0 s, dvmCompilerStartup cap env s0 = (true, s) → LengthInv cap s) ∧
    (∀ self pc kind info s, LengthInv cap s →
      LengthInv cap (dvmCompilerWorkEnqueue cap self pc kind info s).2) ∧
    (∀ s, LengthInv cap s → 0 < s.compilerQueueLength →
      LengthInv cap (workDequeue cap s).2) ∧
    (∀ self s, LengthInv cap (resetCodeCache cap self s)) ∧
    (∀ env s0 s ops r, dvmCompilerStartup cap env s0 = (true, s) →
      runFrom cap (QueueRun.start s) ops = some r →
      0 ≤ r.jit.compilerQueueLength ∧ r.jit.compilerQueueLength ≤ (cap : Int)) :=
  ⟨lengthInv_startup cap,
   fun self pc kind info s h => lengthInv_enqueue cap self pc kind info s h,
   fun s h hpos => lengthInv_dequeue cap s h hpos,
   fun self s => lengthInv_reset cap self s,
   fun env s0 s ops r hstart hrun =>
     lengthInv_run cap ops (QueueRun.start s) r (lengthInv_startup cap env s0 s hstart) hrun⟩

/-- C6 witness: the run `mixedOps` on four slots, and a dequeue of
`onceQueued`. -/
theorem capacity_invariant_witness :
    (dvmCompilerStartup 4 goodEnv (blankJit 4) = (true, startJit 4) ∧
      runFrom 4 (QueueRun.start (startJit 4)) mixedOps = some mixedRun ∧
      0 ≤ mixedRun.jit.compilerQueueLength ∧
      mixedRun.jit.compilerQueueLength ≤ ((4 : Nat) : Int)) ∧
    (LengthInv 4 onceQueued ∧ 0 < onceQueued.compilerQueueLength ∧
      LengthInv 4 (workDequeue 4 onceQueued).2) :=
  ⟨⟨startJit_startup, mixedRun_run,
    (capacity_invariant 4).2.2.2.2 goodEnv (blankJit 4) (startJit 4) mixedOps mixedRun
      startJit_startup mixedRun_run⟩,
   ⟨by unfold LengthInv; decide, by decide,
    (capacity_invariant 4).2.2.1 onceQueued (by unfold LengthInv; decide) (by decide)⟩⟩

/-! Uniqueness of the queued addresses -/

theorem livePcs_eq (cap : Nat) (s : JitState) :
    (liveSlots cap s).map (fun w => w.pc) =
      (List.range s.compilerQueueLength.toNat).map
        (fun k => (slot s (liveIndex cap s k)).pc) := by
  unfold liveSlots
  rw [List.map_map]
  rfl

theorem uniqueLive_iff (cap : Nat) (s : JitState) :
    UniqueLive cap s ↔ ((liveSlots cap s).map (fun w => w.pc)).Nodup := by
  rw [livePcs_eq, List.nodup_map_iff_inj_on (List.nodup_range _)]
  unfold UniqueLive
  constructor
  · intro h x hx y hy hxy
    rw [List.mem_range] at hx hy
    exact h x y (by omega) (by omega) hxy
  · intro h j k hj hk hjk
    exact h j (List.mem_range.2 (by omega)) k (List.mem_range.2 (by omega)) hjk

theorem mem_livePcs (cap : Nat) (s : JitState) (pc : Nat) :
    pc ∈ (liveSlots cap s).map (fun w => w.pc) ↔ queued cap s pc := by
  rw [livePcs_eq, List.mem_map]
  unfold queued
  constructor
  · rintro ⟨k, hk, h⟩
    rw [List.mem_range] at hk
    exact ⟨k, by omega, h⟩
  · rintro ⟨k, hk, h⟩
    exact ⟨k, List.mem_range.2 (by omega), h⟩

theorem uniqueLive_step (cap : Nat) (hcap : 0 < cap) (r r1 : QueueRun) (op : QueueOp)
    (h : Consistent cap r.jit ∧ UniqueLive cap r.jit)
    (_hop : (fun _ => true) op = true)
    (hstep : runStep cap r op = some r1) :
    Consistent cap r1.jit ∧ UniqueLive cap r1.jit := by
  obtain ⟨hc, hu⟩ := h
  cases op with
  | enqueue self pc kind info =>
    simp only [runStep, Option.some.injEq] at hstep
    subst hstep
    refine ⟨consistent_enqueue cap self pc kind info r.jit hc, ?_⟩
    rcases enqueue_cases cap self pc kind info r.jit with h1 | ⟨hfull, hscan, _⟩
    · show UniqueLive cap (dvmCompilerWorkEnqueue cap self pc kind info r.jit).2
      rw [h1]; exact hu
    · show UniqueLive cap (dvmCompilerWorkEnqueue cap self pc kind info r.jit).2
      rw [uniqueLive_iff, liveSlots_enqueue cap self pc kind info r.jit hc hfull hscan,
        List.map_append, List.nodup_append]
      refine ⟨(uniqueLive_iff cap r.jit).1 hu, List.nodup_singleton _, ?_⟩
      simp only [List.map_cons, List.map_nil]
      rw [List.disjoint_singleton]
      intro hmem
      have hmem2 : pc ∈ (liveSlots cap r.jit).map (fun w => w.pc) := hmem
      rw [mem_livePcs, queued_iff_scan cap r.jit pc hc.1.2.2.1] at hmem2
      exact hscan hmem2
  | dequeue =>
    simp only [runStep] at hstep
    split_ifs at hstep with hpos
    simp only [Option.some.injEq] at hstep
    subst hstep
    refine ⟨consistent_dequeue cap r.jit hc hpos, ?_⟩
    show UniqueLive cap (workDequeue cap r.jit).2
    rw [uniqueLive_iff] at hu ⊢
    rw [liveSlots_dequeue cap r.jit hc hpos, List.map_cons] at hu
    exact hu.of_cons
  | reset self =>
    simp only [runStep, Option.some.injEq] at hstep
    subst hstep
    refine ⟨consistent_reset cap self hcap r.jit, ?_⟩
    show UniqueLive cap (resetCodeCache cap self r.jit)
    rw [uniqueLive_iff, liveSlots_nil cap _ rfl]
    exact List.nodup_nil

/-- C7: in every state reached from the state `dvmCompilerStartup` leaves by
`dvmCompilerWorkEnqueue`, `workDequeue` (with a positive length) and
`resetCodeCache`, two live slots at different places of the queue never hold
the same address. -/
theorem live_addresses_unique (cap : Nat) (env : StartupEnv) (s0 s : JitState)
    (ops : List QueueOp) (r : QueueRun)
    (hstart : dvmCompilerStartup cap env s0 = (true, s))
    (hrun : runFrom cap (QueueRun.start s) ops = some r) :
    ∀ j k : Nat, (j : Int) < r.jit.compilerQueueLength →
      (k : Int) < r.jit.compilerQueueLength → j ≠ k →
      (slot r.jit (liveIndex cap r.jit j)).pc ≠ (slot r.jit (liveIndex cap r.jit k)).pc := by
  intro j k hj hk hjk hpc
  rcases Nat.eq_zero_or_pos cap with h0 | hcap
  · have hl := lengthInv_run cap ops (QueueRun.start s) r
      (lengthInv_startup cap env s0 s hstart) hrun
    unfold LengthInv at hl
    rw [h0] at hl
    have : ((0 : Nat) : Int) = 0 := rfl
    omega
  · have hinit : Consistent cap (QueueRun.start s).jit ∧ UniqueLive cap (QueueRun.start s).jit := by
      refine ⟨consistent_startup cap hcap env s0 s hstart, ?_⟩
      have hl := (startup_state cap env s0 s hstart).2.2.2.1
      show UniqueLive cap s
      rw [uniqueLive_iff, liveSlots_nil cap s hl]
      exact List.nodup_nil
    have hfin := run_invariant cap (fun r => Consistent cap r.jit ∧ UniqueLive cap r.jit)
      (fun _ => true) (uniqueLive_step cap hcap) ops (QueueRun.start s) r hinit
      (all_true ops) hrun
    exact hjk (hfin.2 j k hj hk hpc)

/-- C7 witness: the two live slots at the end of the run `mixedOps`. -/
theorem live_addresses_unique_witness :
    (dvmCompilerStartup 4 goodEnv (blankJit 4) = (true, startJit 4) ∧
      runFrom 4 (QueueRun.start (startJit 4)) mixedOps = some mixedRun) ∧
    mixedRun.jit.compilerQueueLength = 2 ∧
    (slot mixedRun.jit (liveIndex 4 mixedRun.jit 0)).pc ≠
      (slot mixedRun.jit (liveIndex 4 mixedRun.jit 1)).pc :=
  ⟨⟨startJit_startup, mixedRun_run⟩, by decide,
   live_addresses_unique 4 goodEnv (blankJit 4) (startJit 4) mixedOps mixedRun
     startJit_startup mixedRun_run 0 1 (by decide) (by decide) (by decide)⟩

/-! The tag of a slot -/

theorem isLive_enqueue (cap self pc : Nat) (kind : WorkOrderKind) (info : Nat)
    (s : JitState) (h : Consistent cap s)
    (hfull : ¬ (s.compilerQueueLength = (cap : Int) ∨ s.codeCacheFull = true))
    (hscan : ¬ alreadyEnqueued cap s.compilerWorkQueue pc s.compilerQueueLength.toNat
        s.compilerWorkDequeueIndex = true) (j : Nat) :
    isLive cap (dvmCompilerWorkEnqueue cap self pc kind info s).2 j ↔
      (isLive cap s j ∨ j = s.compilerWorkEnqueueIndex) := by
  obtain ⟨⟨_, _, _, h0, _⟩, hidx⟩ := h
  rw [enqueue_accept cap self pc kind info s hfull hscan]
  show (∃ k : Nat, (k : Int) < s.compilerQueueLength + 1 ∧
      j = (s.compilerWorkDequeueIndex + k) % cap) ↔
    ((∃ k : Nat, (k : Int) < s.compilerQueueLength ∧
      j = (s.compilerWorkDequeueIndex + k) % cap) ∨ j = s.compilerWorkEnqueueIndex)
  constructor
  · rintro ⟨k, hk, hj⟩
    by_cases hlt : (k : Int) < s.compilerQueueLength
    · exact Or.inl ⟨k, hlt, hj⟩
    · right
      have hk2 : k = s.compilerQueueLength.toNat := by omega
      rw [hj, hidx, hk2]
  · rintro (⟨k, hk, hj⟩ | hj)
    · exact ⟨k, by omega, hj⟩
    · exact ⟨s.compilerQueueLength.toNat, by omega, by rw [hj, hidx]⟩

theorem isLive_dequeue (cap : Nat) (s : JitState) (h : Consistent cap s)
    (_hpos : 0 < s.compilerQueueLength) (j : Nat) :
    isLive cap (workDequeue cap s).2 j ↔
      (isLive cap s j ∧ j ≠ s.compilerWorkDequeueIndex) := by
  obtain ⟨⟨_, _, hdeq, h0, hle⟩, _⟩ := h
  have hshift : ∀ k, ((if s.compilerWorkDequeueIndex + 1 = cap then 0
      else s.compilerWorkDequeueIndex + 1) + k) % cap =
      (s.compilerWorkDequeueIndex + (k + 1)) % cap := by
    intro k
    rw [wrap_eq_mod hdeq, Nat.mod_add_mod]
    congr 1; omega
  show (∃ k : Nat, (k : Int) < s.compilerQueueLength - 1 ∧
      j = ((if s.compilerWorkDequeueIndex + 1 = cap then 0
        else s.compilerWorkDequeueIndex + 1) + k) % cap) ↔
    ((∃ k : Nat, (k : Int) < s.compilerQueueLength ∧
      j = (s.compilerWorkDequeueIndex + k) % cap) ∧ j ≠ s.compilerWorkDequeueIndex)
  constructor
  · rintro ⟨k, hk, hj⟩
    rw [hshift] at hj
    refine ⟨⟨k + 1, by omega, hj⟩, ?_⟩
    intro hc
    have hc2 : (s.compilerWorkDequeueIndex + (k + 1)) % cap =
        (s.compilerWorkDequeueIndex + 0) % cap := by
      have e : (s.compilerWorkDequeueIndex + 0) % cap = s.compilerWorkDequeueIndex := by
        simp [Nat.mod_eq_of_lt hdeq]
      rw [e, ← hj]; exact hc
    have := liveIndex_inj (by omega) (by omega) hc2
    omega
  · rintro ⟨⟨k, hk, hj⟩, hne⟩
    cases k with
    | zero =>
      rw [Nat.add_zero, Nat.mod_eq_of_lt hdeq] at hj
      exact absurd hj hne
    | succ k => exact ⟨k, by omega, by rw [hshift]; exact hj⟩

theorem tagInv_step (cap : Nat) (hcap : 0 < cap) (r r1 : QueueRun) (op : QueueOp)
    (h : Consistent cap r.jit ∧ TagInv cap r.jit)
    (hop : op.validKind = true)
    (hstep : runStep cap r op = some r1) :
    Consistent cap r1.jit ∧ TagInv cap r1.jit := by
  obtain ⟨hc, ht⟩ := h
  cases op with
  | enqueue self pc kind info =>
    simp only [runStep, Option.some.injEq] at hstep
    subst hstep
    refine ⟨consistent_enqueue cap self pc kind info r.jit hc, ?_⟩
    show TagInv cap (dvmCompilerWorkEnqueue cap self pc kind info r.jit).2
    rcases enqueue_cases cap self pc kind info r.jit with h1 | ⟨hfull, hscan, _⟩
    · rw [h1]; exact ht
    · intro j hj
      rw [isLive_enqueue cap self pc kind info r.jit hc hfull hscan j]
      have hkind : kind ≠ kWorkOrderInvalid := by
        simpa [QueueOp.validKind] using hop
      have hin : r.jit.compilerWorkEnqueueIndex < r.jit.compilerWorkQueue.length := by
        rw [hc.1.1]; exact hc.1.2.1
      rw [enqueue_accept cap self pc kind info r.jit hfull hscan]
      by_cases hje : j = r.jit.compilerWorkEnqueueIndex
      · subst hje
        have hs : (slot { r.jit with
            compilerWorkQueue := r.jit.compilerWorkQueue.set r.jit.compilerWorkEnqueueIndex
              { pc := pc, kind := kind, info := info,
                result := { (slot r.jit r.jit.compilerWorkEnqueueIndex).result with
                  codeAddress := 0,
                  discardResult :=
                    (kind == kWorkOrderTraceDebug || kind == kWorkOrderICPatch),
                  requestingThread := self } },
            compilerWorkEnqueueIndex :=
              if r.jit.compilerWorkEnqueueIndex + 1 = cap then 0
              else r.jit.compilerWorkEnqueueIndex + 1,
            compilerQueueLength := r.jit.compilerQueueLength + 1,
            calls := r.jit.calls ++ [Call.signalActivity] }
            r.jit.compilerWorkEnqueueIndex).kind = kind := by
          simp [slot, getD_set, hin]
        rw [hs]
        simp [hkind]
      · have hj2 : ¬ (r.jit.compilerWorkEnqueueIndex = j ∧
            r.jit.compilerWorkEnqueueIndex < r.jit.compilerWorkQueue.length) :=
          fun hc2 => hje hc2.1.symm
        have hs : slot { r.jit with
            compilerWorkQueue := r.jit.compilerWorkQueue.set r.jit.compilerWorkEnqueueIndex
              { pc := pc, kind := kind, info := info,
                result := { (slot r.jit r.jit.compilerWorkEnqueueIndex).result with
                  codeAddress := 0,
                  discardResult :=
                    (kind == kWorkOrderTraceDebug || kind == kWorkOrderICPatch),
                  requestingThread := self } },
            compilerWorkEnqueueIndex :=
              if r.jit.compilerWorkEnqueueIndex + 1 = cap then 0
              else r.jit.compilerWorkEnqueueIndex + 1,
            compilerQueueLength := r.jit.compilerQueueLength + 1,
            calls := r.jit.calls ++ [Call.signalActivity] } j = slot r.jit j := by
          simp only [slot, getD_set, if_neg hj2]
        rw [hs, ht j hj]
        simp [hje]
  | dequeue =>
    simp only [runStep] at hstep
    split_ifs at hstep with hpos
    simp only [Option.some.injEq] at hstep
    subst hstep
    refine ⟨consistent_dequeue cap r.jit hc hpos, ?_⟩
    show TagInv cap (workDequeue cap r.jit).2
    intro j hj
    rw [isLive_dequeue cap r.jit hc hpos j]
    have hin : r.jit.compilerWorkDequeueIndex < r.jit.compilerWorkQueue.length := by
      rw [hc.1.1]; exact hc.1.2.2.1
    by_cases hjd : j = r.jit.compilerWorkDequeueIndex
    · subst hjd
      have hs : (slot (workDequeue cap r.jit).2 r.jit.compilerWorkDequeueIndex).kind =
          kWorkOrderInvalid := by
        simp [workDequeue, slot, getD_set, hin]
      rw [hs]
      simp
    · have hj2 : ¬ (r.jit.compilerWorkDequeueIndex = j ∧
          r.jit.compilerWorkDequeueIndex < r.jit.compilerWorkQueue.length) :=
        fun hc2 => hjd hc2.1.symm
      have hs : slot (workDequeue cap r.jit).2 j = slot r.jit j := by
        simp only [workDequeue, slot, getD_set, if_neg hj2]
      rw [hs, ht j hj]
      simp [hjd]
  | reset self =>
    simp only [runStep, Option.some.injEq] at hstep
    subst hstep
    refine ⟨consistent_reset cap self hcap r.jit, ?_⟩
    show TagInv cap (resetCodeCache cap self r.jit)
    intro j _
    have hs : slot (resetCodeCache cap self r.jit) j = zeroOrder := by
      simp only [resetCodeCache, slot, getD_replicate]
    rw [hs]
    have hnl : ¬ isLive cap (resetCodeCache cap self r.jit) j := by
      rintro ⟨k, hk, _⟩
      have hk2 : (k : Int) < 0 := hk
      omega
    simp [zeroOrder, hnl]

/-- C8 (as the code has it): in every state reached from the state
`dvmCompilerStartup` leaves by `dvmCompilerWorkEnqueue` with a kind other than
`kWorkOrderInvalid`, `workDequeue` (with a positive length) and
`resetCodeCache`, a slot of the array is tagged `kWorkOrderInvalid` exactly when
it is not live; so the slot at the dequeue index is not tagged
`kWorkOrderInvalid` whenever the length is positive. -/
theorem slot_tag_invariant (cap : Nat) (env : StartupEnv) (s0 s : JitState)
    (ops : List QueueOp) (r : QueueRun)
    (hstart : dvmCompilerStartup cap env s0 = (true, s))
    (hkinds : validKinds ops = true)
    (hrun : runFrom cap (QueueRun.start s) ops = some r) :
    (∀ j, j < cap → ((slot r.jit j).kind = kWorkOrderInvalid ↔ ¬ isLive cap r.jit j)) ∧
    (0 < r.jit.compilerQueueLength →
      (slot r.jit r.jit.compilerWorkDequeueIndex).kind ≠ kWorkOrderInvalid) := by
  rcases Nat.eq_zero_or_pos cap with h0 | hcap
  · have hl := lengthInv_run cap ops (QueueRun.start s) r
      (lengthInv_startup cap env s0 s hstart) hrun
    unfold LengthInv at hl
    rw [h0] at hl
    have hz : ((0 : Nat) : Int) = 0 := rfl
    refine ⟨fun j hj => ?_, fun hpos => ?_⟩
    · omega
    · omega
  · obtain ⟨hq, he, hd, hl, _, _⟩ := startup_state cap env s0 s hstart
    have hinit : Consistent cap (QueueRun.start s).jit ∧ TagInv cap (QueueRun.start s).jit := by
      refine ⟨consistent_startup cap hcap env s0 s hstart, ?_⟩
      show TagInv cap s
      intro j _
      have hs : slot s j = zeroOrder := by
        simp only [slot, hq, getD_replicate]
      have hnl : ¬ isLive cap s j := by
        rintro ⟨k, hk, _⟩
        rw [hl] at hk
        omega
      rw [hs]
      simp [zeroOrder, hnl]
    have hfin := run_invariant cap (fun r => Consistent cap r.jit ∧ TagInv cap r.jit)
      QueueOp.validKind (tagInv_step cap hcap) ops (QueueRun.start s) r hinit hkinds hrun
    refine ⟨hfin.2, fun hpos hinv => ?_⟩
    have hdeq : r.jit.compilerWorkDequeueIndex < cap := hfin.1.1.2.2.1
    refine (hfin.2 _ hdeq).1 hinv ⟨0, by simpa using hpos, ?_⟩
    unfold liveIndex
    rw [Nat.add_zero, Nat.mod_eq_of_lt hdeq]

/-- C8 witness: at the end of the run `mixedOps` the slot at the dequeue index
is tagged with the kind it was queued with. -/
theorem slot_tag_invariant_witness :
    (dvmCompilerStartup 4 goodEnv (blankJit 4) = (true, startJit 4) ∧
      validKinds mixedOps = true ∧
      runFrom 4 (QueueRun.start (startJit 4)) mixedOps = some mixedRun ∧
      0 < mixedRun.jit.compilerQueueLength) ∧
    (slot mixedRun.jit mixedRun.jit.compilerWorkDequeueIndex).kind ≠ kWorkOrderInvalid :=
  ⟨⟨startJit_startup, by decide, mixedRun_run, by decide⟩,
   (slot_tag_invariant 4 goodEnv (blankJit 4) (startJit 4) mixedOps mixedRun
     startJit_startup (by decide) mixedRun_run).2 (by decide)⟩

/-- C8 fails as stated: `dvmCompilerWorkEnqueue` called with the kind
`kWorkOrderInvalid` on the queue left by start-up is accepted, and slot `0` is
then live and tagged `kWorkOrderInvalid`, so the assertion of `workDequeue`
fails although the length is positive. -/
theorem invalid_kind_live_slot :
    dvmCompilerStartup 4 goodEnv (blankJit 4) = (true, startJit 4) ∧
    (∃ r, runFrom 4 (QueueRun.start (startJit 4))
        [QueueOp.enqueue 1 7 kWorkOrderInvalid 9] = some r ∧ r.jit = invalidQueued) ∧
    ¬ ((slot invalidQueued 0).kind = kWorkOrderInvalid ↔ ¬ isLive 4 invalidQueued 0) ∧
    0 < invalidQueued.compilerQueueLength ∧
    (slot invalidQueued invalidQueued.compilerWorkDequeueIndex).kind = kWorkOrderInvalid := by
  refine ⟨startJit_startup, ⟨_, rfl, rfl⟩, ?_, by decide, by decide⟩
  intro h
  exact h.1 (by decide) ⟨0, by decide, by decide⟩

/-! `resetCodeCache` -/

/-- C9: whatever the state, after `resetCodeCache` the queue length and both
indices are `0`, the array has its `cap` slots and each is tagged
`kWorkOrderInvalid`, `codeCacheByteUsed` is `templateSize`, `codeCacheFull` is
false, the JIT table was reset exactly once more than before, and
`templateSize` and the high water mark are as before. -/
theorem resetCodeCache_post (cap self : Nat) (s : JitState) :
    (resetCodeCache cap self s).compilerQueueLength = 0 ∧
    (resetCodeCache cap self s).compilerWorkEnqueueIndex = 0 ∧
    (resetCodeCache cap self s).compilerWorkDequeueIndex = 0 ∧
    (resetCodeCache cap self s).compilerWorkQueue.length = cap ∧
    (∀ j, j < cap → (slot (resetCodeCache cap self s) j).kind = kWorkOrderInvalid) ∧
    (resetCodeCache cap self s).codeCacheByteUsed = s.templateSize ∧
    (resetCodeCache cap self s).codeCacheFull = false ∧
    resetTableCount (resetCodeCache cap self s) = resetTableCount s + 1 ∧
    (resetCodeCache cap self s).templateSize = s.templateSize ∧
    (resetCodeCache cap self s).compilerHighWater = s.compilerHighWater := by
  refine ⟨rfl, rfl, rfl, ?_, ?_, rfl, rfl, ?_, rfl, rfl⟩
  · simp [resetCodeCache]
  · intro j _
    simp only [resetCodeCache, slot, getD_replicate]
    rfl
  · simp [resetTableCount, resetCodeCache, List.count_append]

/-! The payload of a work order -/

/-- C10 fails on the code: with the addresses `7` (payload `9`) and `8` (payload
`80`) both written into the queue, the compiler thread works on the first
order, frees its payload once, finds the code cache full and runs
`resetCodeCache`; the queue is then empty, no slot holds the payload `80` any
more, and `free` was never called on it. -/
theorem reset_drops_payload_unfreed :
    (dvmCompilerWorkEnqueue 4 2 8 kWorkOrderTrace 80 onceQueued).1 = true ∧
    (slot twoQueued 0).info = 9 ∧ (slot twoQueued 1).info = 80 ∧
    twoQueued.compilerQueueLength = 2 ∧
    freeCount twoQueued 9 = 0 ∧ freeCount twoQueued 80 = 0 ∧
    freeCount afterFullCache 9 = 1 ∧
    freeCount afterFullCache 80 = 0 ∧
    afterFullCache.compilerQueueLength = 0 ∧
    (∀ j, j < 4 → (slot afterFullCache j).info ≠ 80) := by
  decide

theorem freeCount_workDequeue (cap : Nat) (s : JitState) (p : Nat) :
    freeCount (workDequeue cap s).2 p = freeCount s p := by
  unfold freeCount workDequeue
  dsimp only
  split_ifs <;> simp [List.count_append]

theorem freeCount_checkJitTable (s : JitState) (p : Nat) :
    freeCount (checkJitTable s) p = freeCount s p := by
  unfold freeCount checkJitTable
  split_ifs <;> simp [List.count_append]

theorem freeCount_compileWork (doWork : JitState → CompilerWorkOrder → DoWorkResult)
    (work : CompilerWorkOrder) (s : JitState) (p : Nat) :
    freeCount (compileWork doWork work s) p = freeCount s p := by
  unfold freeCount compileWork
  dsimp only
  split_ifs <;> simp [List.count_append]

theorem freeCount_resetCodeCache (cap self : Nat) (s : JitState) (p : Nat) :
    freeCount (resetCodeCache cap self s) p = freeCount s p := by
  simp [freeCount, resetCodeCache, List.count_append]

theorem compilerThreadWork_frees (cap self : Nat)
    (doWork : JitState → CompilerWorkOrder → DoWorkResult) (s : JitState) (p : Nat) :
    freeCount (compilerThreadWork cap self doWork s) p =
      freeCount s p + (if (slot s s.compilerWorkDequeueIndex).info = p then 1 else 0) := by
  have hfree : ∀ (t : JitState) (q : Nat),
      freeCount { t with calls := t.calls ++ [Call.free q] } p =
        freeCount t p + (if q = p then 1 else 0) := by
    intro t q
    by_cases hq : q = p
    · simp [freeCount, List.count_append, hq]
    · have hq2 : ¬ p = q := fun h => hq h.symm
      simp [freeCount, List.count_append, List.count_cons, hq, hq2]
  have hcheck : ∀ (t : JitState),
      freeCount { t with calls := t.calls ++ [Call.dvmCheckSuspendPending] } p =
        freeCount t p := by
    intro t
    simp [freeCount, List.count_append]
  generalize hk : (if (slot s s.compilerWorkDequeueIndex).info = p then 1 else 0) = k
  have hk2 : (if (workDequeue cap s).1.info = p then 1 else 0) = k := hk
  unfold compilerThreadWork
  dsimp only
  split_ifs
  · rw [freeCount_resetCodeCache, hfree, freeCount_compileWork, freeCount_checkJitTable,
      hcheck, freeCount_workDequeue, hk2]
  · rw [hfree, freeCount_compileWork, freeCount_checkJitTable, hcheck,
      freeCount_workDequeue, hk2]

/-! The work of the compiler thread on one order -/

theorem installs_append (s : JitState) (c : Call) :
    installs { s with calls := s.calls ++ [c] } =
      installs s ++ (match c with
        | Call.dvmJitSetCodeAddr pc codeAddress instructionSet =>
          [(pc, codeAddress, instructionSet)]
        | _ => []) := by
  unfold installs
  simp only [List.filterMap_append]
  cases c <;> rfl

theorem compiled_append (s : JitState) (c : Call) :
    compiled { s with calls := s.calls ++ [c] } =
      compiled s ++ (match c with
        | Call.dvmCompilerDoWork pc => [pc]
        | _ => []) := by
  unfold compiled
  simp only [List.filterMap_append]
  cases c <;> rfl

theorem installs_workDequeue (cap : Nat) (s : JitState) :
    installs (workDequeue cap s).2 = installs s := by
  unfold workDequeue installs
  dsimp only
  split_ifs <;> simp [List.filterMap_append]

theorem compiled_workDequeue (cap : Nat) (s : JitState) :
    compiled (workDequeue cap s).2 = compiled s := by
  unfold workDequeue compiled
  dsimp only
  split_ifs <;> simp [List.filterMap_append]

theorem installs_checkJitTable (s : JitState) :
    installs (checkJitTable s) = installs s := by
  unfold checkJitTable installs
  split_ifs <;> simp [List.filterMap_append]

theorem compiled_checkJitTable (s : JitState) :
    compiled (checkJitTable s) = compiled s := by
  unfold checkJitTable compiled
  split_ifs <;> simp [List.filterMap_append]

theorem installs_resetCodeCache (cap self : Nat) (s : JitState) :
    installs (resetCodeCache cap self s) = installs s := by
  simp [installs, resetCodeCache, List.filterMap_append]

theorem compiled_resetCodeCache (cap self : Nat) (s : JitState) :
    compiled (resetCodeCache cap self s) = compiled s := by
  simp [compiled, resetCodeCache, List.filterMap_append]

theorem installs_stateAtCompile (cap : Nat) (s : JitState) :
    installs (stateAtCompile cap s) = installs s := by
  unfold stateAtCompile
  rw [installs_checkJitTable, installs_append, installs_workDequeue]
  simp

theorem compiled_stateAtCompile (cap : Nat) (s : JitState) :
    compiled (stateAtCompile cap s) = compiled s := by
  unfold stateAtCompile
  rw [compiled_checkJitTable, compiled_append, compiled_workDequeue]
  simp

theorem checkJitTable_fields (s : JitState) :
    (checkJitTable s).haltCompilerThread = s.haltCompilerThread ∧
    (checkJitTable s).interpretTemplate = s.interpretTemplate ∧
    (checkJitTable s).compilerQueueLength = s.compilerQueueLength ∧
    (checkJitTable s).codeCacheFull = s.codeCacheFull := by
  unfold checkJitTable
  split_ifs <;> exact ⟨rfl, rfl, rfl, rfl⟩

theorem stateAtCompile_fields (cap : Nat) (s : JitState) :
    (stateAtCompile cap s).haltCompilerThread = s.haltCompilerThread ∧
    (stateAtCompile cap s).interpretTemplate = s.interpretTemplate ∧
    (stateAtCompile cap s).compilerQueueLength = s.compilerQueueLength - 1 ∧
    (stateAtCompile cap s).codeCacheFull = s.codeCacheFull := by
  unfold stateAtCompile
  obtain ⟨h1, h2, h3, h4⟩ := checkJitTable_fields
    { (workDequeue cap s).2 with
      calls := (workDequeue cap s).2.calls ++ [Call.dvmCheckSuspendPending] }
  rw [h1, h2, h3, h4]
  exact ⟨rfl, rfl, rfl, rfl⟩

theorem compilerThreadWork_eq (cap self : Nat)
    (doWork : JitState → CompilerWorkOrder → DoWorkResult) (s : JitState) :
    compilerThreadWork cap self doWork s =
      if (compileWork doWork (workDequeue cap s).1 (stateAtCompile cap s)).codeCacheFull = true
      then resetCodeCache cap self
        { compileWork doWork (workDequeue cap s).1 (stateAtCompile cap s) with
          calls := (compileWork doWork (workDequeue cap s).1 (stateAtCompile cap s)).calls ++
            [Call.free (workDequeue cap s).1.info] }
      else
        { compileWork doWork (workDequeue cap s).1 (stateAtCompile cap s) with
          calls := (compileWork doWork (workDequeue cap s).1 (stateAtCompile cap s)).calls ++
            [Call.free (workDequeue cap s).1.info] } := rfl

theorem installs_compilerThreadWork (cap self : Nat)
    (doWork : JitState → CompilerWorkOrder → DoWorkResult) (s : JitState) :
    installs (compilerThreadWork cap self doWork s) =
      installs (compileWork doWork (workDequeue cap s).1 (stateAtCompile cap s)) := by
  rw [compilerThreadWork_eq]
  split_ifs
  · rw [installs_resetCodeCache, installs_append]; simp
  · rw [installs_append]; simp

theorem compiled_compilerThreadWork (cap self : Nat)
    (doWork : JitState → CompilerWorkOrder → DoWorkResult) (s : JitState) :
    compiled (compilerThreadWork cap self doWork s) =
      compiled (compileWork doWork (workDequeue cap s).1 (stateAtCompile cap s)) := by
  rw [compilerThreadWork_eq]
  split_ifs
  · rw [compiled_resetCodeCache, compiled_append]; simp
  · rw [compiled_append]; simp

theorem compileWork_halt (doWork : JitState → CompilerWorkOrder → DoWorkResult)
    (work : CompilerWorkOrder) (s : JitState) (h : s.haltCompilerThread = true) :
    compileWork doWork work s = s := by
  unfold compileWork
  rw [if_pos h]

theorem installs_compileWork_discard (doWork : JitState → CompilerWorkOrder → DoWorkResult)
    (work : CompilerWorkOrder) (s : JitState) (h : work.result.discardResult = true) :
    installs (compileWork doWork work s) = installs s := by
  unfold compileWork
  have hd : ¬ work.result.discardResult = false := by rw [h]; decide
  by_cases hh : s.haltCompilerThread = true
  · rw [if_pos hh]
  · rw [if_neg hh]
    dsimp only
    rw [if_neg hd]
    simp [installs, List.filterMap_append]

theorem installs_compileWork_keep (doWork : JitState → CompilerWorkOrder → DoWorkResult)
    (work : CompilerWorkOrder) (s : JitState) (hh : s.haltCompilerThread = false)
    (h : work.result.discardResult = false) :
    installs (compileWork doWork work s) =
      installs s ++ [(work.pc, resultCodeAddress (doWork s work) s,
        (doWork s work).instructionSet)] := by
  unfold compileWork
  have hh2 : ¬ s.haltCompilerThread = true := by rw [hh]; decide
  rw [if_neg hh2]
  dsimp only
  rw [if_pos h]
  simp [installs, resultCodeAddress, List.filterMap_append]

theorem resultCodeAddress_stateAtCompile (cap : Nat) (r : DoWorkResult) (s : JitState) :
    resultCodeAddress r (stateAtCompile cap s) = resultCodeAddress r s := by
  unfold resultCodeAddress
  rw [(stateAtCompile_fields cap s).2.1]

/-- C11: when the dequeued order has `discardResult` set, the work of the
compiler thread on it makes no call of `dvmJitSetCodeAddr`, whatever
`dvmCompilerDoWork` answers; when no halt is pending and `discardResult` is
clear, it makes exactly one, of the order's `pc` with the resulting code address
and instruction set. -/
theorem discard_never_installs (cap self : Nat)
    (doWork : JitState → CompilerWorkOrder → DoWorkResult) (s : JitState) :
    ((workDequeue cap s).1.result.discardResult = true →
      installs (compilerThreadWork cap self doWork s) = installs s) ∧
    (s.haltCompilerThread = false →
      (workDequeue cap s).1.result.discardResult = false →
      installs (compilerThreadWork cap self doWork s) =
        installs s ++ [((workDequeue cap s).1.pc,
          resultCodeAddress (doWork (stateAtCompile cap s) (workDequeue cap s).1) s,
          (doWork (stateAtCompile cap s) (workDequeue cap s).1).instructionSet)]) := by
  constructor
  · intro hd
    rw [installs_compilerThreadWork, installs_compileWork_discard doWork _ _ hd,
      installs_stateAtCompile]
  · intro hh hd
    have hh2 : (stateAtCompile cap s).haltCompilerThread = false := by
      rw [(stateAtCompile_fields cap s).1]; exact hh
    rw [installs_compilerThreadWork, installs_compileWork_keep doWork _ _ hh2 hd,
      installs_stateAtCompile, resultCodeAddress_stateAtCompile]

/-- C11 witness: an `kWorkOrderICPatch` order compiled with success installs
nothing; a `kWorkOrderTrace` order compiled with success installs its result. -/
theorem discard_never_installs_witness :
    ((workDequeue 4 patchQueued).1.result.discardResult = true ∧
      installs (compilerThreadWork 4 5 fillingWork patchQueued) = installs patchQueued) ∧
    (onceQueued.haltCompilerThread = false ∧
      (workDequeue 4 onceQueued).1.result.discardResult = false ∧
      installs (compilerThreadWork 4 5 fillingWork onceQueued) = [(7, 4200, 1)]) :=
  ⟨⟨by decide, (discard_never_installs 4 5 fillingWork patchQueued).1 (by decide)⟩,
   ⟨by decide, by decide,
    ((discard_never_installs 4 5 fillingWork onceQueued).2 (by decide) (by decide)).trans
      (by decide)⟩⟩

/-- C12: when no halt is pending and `dvmCompilerDoWork` returns false for the
dequeued order, the order's code address becomes `gDvmJit.interpretTemplate`;
if `discardResult` is clear, the one installation made for the order's `pc` is
of `interpretTemplate`, whatever code address the order was queued with; it is
not `NULL` when `interpretTemplate` is not. -/
theorem failure_installs_interpretTemplate (cap self : Nat)
    (doWork : JitState → CompilerWorkOrder → DoWorkResult) (s : JitState)
    (hhalt : s.haltCompilerThread = false)
    (hfail : (doWork (stateAtCompile cap s) (workDequeue cap s).1).success = false) :
    resultCodeAddress (doWork (stateAtCompile cap s) (workDequeue cap s).1) s =
      s.interpretTemplate ∧
    ((workDequeue cap s).1.result.discardResult = false →
      installs (compilerThreadWork cap self doWork s) =
        installs s ++ [((workDequeue cap s).1.pc, s.interpretTemplate,
          (doWork (stateAtCompile cap s) (workDequeue cap s).1).instructionSet)]) ∧
    (s.interpretTemplate ≠ 0 →
      resultCodeAddress (doWork (stateAtCompile cap s) (workDequeue cap s).1) s ≠ 0) := by
  have haddr : resultCodeAddress (doWork (stateAtCompile cap s) (workDequeue cap s).1) s =
      s.interpretTemplate := by
    unfold resultCodeAddress
    rw [if_pos hfail]
  refine ⟨haddr, ?_, ?_⟩
  · intro hd
    have hh2 : (stateAtCompile cap s).haltCompilerThread = false := by
      rw [(stateAtCompile_fields cap s).1]; exact hhalt
    rw [installs_compilerThreadWork, installs_compileWork_keep doWork _ _ hh2 hd,
      installs_stateAtCompile, resultCodeAddress_stateAtCompile, haddr]
  · intro hne
    rw [haddr]; exact hne

/-- C12 witness: the order for the address `7`, queued with a `NULL` code
address, fails to compile and is installed with the interpreter template
`512`. -/
theorem failure_installs_interpretTemplate_witness :
    (templateQueued.haltCompilerThread = false ∧
      (failingWork (stateAtCompile 4 templateQueued) (workDequeue 4 templateQueued).1).success
        = false ∧
      (workDequeue 4 templateQueued).1.result.discardResult = false ∧
      (workDequeue 4 templateQueued).1.result.codeAddress = 0) ∧
    installs (compilerThreadWork 4 5 failingWork templateQueued) = [(7, 512, 2)] :=
  ⟨⟨by decide, by decide, by decide, by decide⟩,
   ((failure_installs_interpretTemplate 4 5 failingWork templateQueued (by decide)
      (by decide)).2.1 (by decide)).trans (by decide)⟩

/-! Scenarios -/

theorem enqueue_keeps (cap self pc : Nat) (kind : WorkOrderKind) (info : Nat)
    (s : JitState) :
    (dvmCompilerWorkEnqueue cap self pc kind info s).2.codeCacheFull = s.codeCacheFull ∧
    (dvmCompilerWorkEnqueue cap self pc kind info s).2.compilerWorkDequeueIndex =
      s.compilerWorkDequeueIndex := by
  rcases enqueue_cases cap self pc kind info s with h1 | ⟨_, _, h1⟩
  · rw [h1]; exact ⟨rfl, rfl⟩
  · rw [h1]; exact ⟨rfl, rfl⟩

/-- C13: on a queue state with the code cache marked full,
`dvmCompilerWorkEnqueue` returns false; once `resetCodeCache` has run, the same
call returns true and leaves a queue of length `1` whose live slot, slot `0`,
holds the request. -/
theorem cache_full_gate (cap self compiler pc : Nat) (kind : WorkOrderKind) (info : Nat)
    (s : JitState) (hq : QueueState cap s) (hfull : s.codeCacheFull = true) :
    (dvmCompilerWorkEnqueue cap self pc kind info s).1 = false ∧
    (dvmCompilerWorkEnqueue cap self pc kind info
      (resetCodeCache cap compiler (dvmCompilerWorkEnqueue cap self pc kind info s).2)).1
        = true ∧
    JitState.compilerQueueLength (dvmCompilerWorkEnqueue cap self pc kind info
      (resetCodeCache cap compiler (dvmCompilerWorkEnqueue cap self pc kind info s).2)).2
        = 1 ∧
    liveIndex cap (dvmCompilerWorkEnqueue cap self pc kind info
      (resetCodeCache cap compiler (dvmCompilerWorkEnqueue cap self pc kind info s).2)).2 0
        = 0 ∧
    (slot (dvmCompilerWorkEnqueue cap self pc kind info
      (resetCodeCache cap compiler (dvmCompilerWorkEnqueue cap self pc kind info s).2)).2
        0).request = (pc, kind, info) := by
  have hcap : 0 < cap := by
    have := hq.2.1
    omega
  have h1 : dvmCompilerWorkEnqueue cap self pc kind info s = (false, s) :=
    enqueue_full cap self pc kind info s (Or.inr hfull)
  have hnf : ¬ ((resetCodeCache cap compiler s).compilerQueueLength = (cap : Int) ∨
      (resetCodeCache cap compiler s).codeCacheFull = true) := by
    show ¬ ((0 : Int) = (cap : Int) ∨ false = true)
    simp; omega
  have hscan : ¬ alreadyEnqueued cap (resetCodeCache cap compiler s).compilerWorkQueue pc
      (resetCodeCache cap compiler s).compilerQueueLength.toNat
      (resetCodeCache cap compiler s).compilerWorkDequeueIndex = true := by
    show ¬ alreadyEnqueued cap _ pc (0 : Int).toNat _ = true
    simp [alreadyEnqueued]
  rw [h1]
  refine ⟨rfl, ?_⟩
  rw [enqueue_accept cap self pc kind info _ hnf hscan]
  refine ⟨rfl, ?_, ?_, ?_⟩
  · show (0 : Int) + 1 = 1
    omega
  · show (0 + 0) % cap = 0
    simp
  · show (((List.replicate cap zeroOrder).set 0 _).getD 0 zeroOrder).request = _
    rw [getD_set, if_pos ⟨rfl, by simpa using hcap⟩]
    rfl

theorem fullCacheQueued_queueState : QueueState 4 fullCacheQueued := by
  unfold QueueState; decide

/-- C13 witness: the address `7` on the queue `fullCacheQueued`, before and
after the reset. -/
theorem cache_full_gate_witness :
    (QueueState 4 fullCacheQueued ∧ fullCacheQueued.codeCacheFull = true) ∧
    (dvmCompilerWorkEnqueue 4 1 7 kWorkOrderTrace 9 fullCacheQueued).1 = false ∧
    (dvmCompilerWorkEnqueue 4 1 7 kWorkOrderTrace 9
      (resetCodeCache 4 5 (dvmCompilerWorkEnqueue 4 1 7 kWorkOrderTrace 9
        fullCacheQueued).2)).1 = true :=
  have h := cache_full_gate 4 1 5 7 kWorkOrderTrace 9 fullCacheQueued
    fullCacheQueued_queueState (by decide)
  ⟨⟨fullCacheQueued_queueState, by decide⟩, h.1, h.2.1⟩

theorem request_pc (w : CompilerWorkOrder) : w.request.1 = w.pc := rfl

theorem liveRequests_pcs (cap : Nat) (s : JitState) :
    ((liveSlots cap s).map CompilerWorkOrder.request).map Prod.fst =
      (liveSlots cap s).map (fun w => w.pc) := by
  rw [List.map_map]
  rfl

theorem enqueueAll_distinct (cap self : Nat) :
    ∀ (reqs : List Request) (s : JitState), Consistent cap s → s.codeCacheFull = false →
      s.compilerQueueLength + (reqs.length : Int) ≤ (cap : Int) →
      (reqs.map Prod.fst).Nodup → (∀ q ∈ reqs, ¬ queued cap s q.1) →
      (enqueueAll cap self reqs s).1 = List.replicate reqs.length true ∧
      Consistent cap (enqueueAll cap self reqs s).2 ∧
      (enqueueAll cap self reqs s).2.codeCacheFull = false ∧
      (enqueueAll cap self reqs s).2.compilerQueueLength =
        s.compilerQueueLength + (reqs.length : Int) ∧
      (enqueueAll cap self reqs s).2.compilerWorkDequeueIndex = s.compilerWorkDequeueIndex ∧
      (liveSlots cap (enqueueAll cap self reqs s).2).map CompilerWorkOrder.request =
        (liveSlots cap s).map CompilerWorkOrder.request ++ reqs := by
  intro reqs
  induction reqs with
  | nil =>
    intro s hc hnf _ _ _
    refine ⟨rfl, hc, hnf, ?_, rfl, ?_⟩
    · show s.compilerQueueLength = s.compilerQueueLength + ((0 : Nat) : Int)
      omega
    · show _ = _ ++ []
      rw [List.append_nil]
      rfl
  | cons req rest ih =>
    intro s hc hnf hroom hdist hnew
    have hroom2 : s.compilerQueueLength + ((rest.length + 1 : Nat) : Int) ≤ (cap : Int) := hroom
    have hfull : ¬ (s.compilerQueueLength = (cap : Int) ∨ s.codeCacheFull = true) := by
      rw [hnf]; simp; omega
    have hscan : ¬ alreadyEnqueued cap s.compilerWorkQueue req.1 s.compilerQueueLength.toNat
        s.compilerWorkDequeueIndex = true := fun hs =>
      hnew req (List.mem_cons_self _ _) ((queued_iff_scan cap s req.1 hc.1.2.2.1).2 hs)
    have hlive := liveSlots_enqueue cap self req.1 req.2.1 req.2.2 s hc hfull hscan
    have hc1 := consistent_enqueue cap self req.1 req.2.1 req.2.2 s hc
    have hk := enqueue_keeps cap self req.1 req.2.1 req.2.2 s
    have hacc := enqueue_accept cap self req.1 req.2.1 req.2.2 s hfull hscan
    have hlen1 : (dvmCompilerWorkEnqueue cap self req.1 req.2.1 req.2.2 s).2.compilerQueueLength
        = s.compilerQueueLength + 1 := by rw [hacc]
    have hret : (dvmCompilerWorkEnqueue cap self req.1 req.2.1 req.2.2 s).1 = true := by
      rw [hacc]
    rw [List.map_cons, List.nodup_cons] at hdist
    have hnew1 : ∀ q ∈ rest,
        ¬ queued cap (dvmCompilerWorkEnqueue cap self req.1 req.2.1 req.2.2 s).2 q.1 := by
      intro q hq hqueued
      rw [← mem_livePcs, hlive, List.map_append, List.mem_append] at hqueued
      rcases hqueued with h | h
      · exact hnew q (List.mem_cons_of_mem _ hq) ((mem_livePcs cap s q.1).1 h)
      · simp only [List.map_cons, List.map_nil, List.mem_singleton] at h
        have h2 : q.1 = req.1 := h
        exact hdist.1 (h2 ▸ List.mem_map_of_mem Prod.fst hq)
    obtain ⟨r1, r2, r3, r4, r5, r6⟩ := ih _ hc1 (hk.1.trans hnf)
      (by rw [hlen1]; omega) hdist.2 hnew1
    refine ⟨?_, r2, r3, ?_, ?_, ?_⟩
    · show (dvmCompilerWorkEnqueue cap self req.1 req.2.1 req.2.2 s).1 :: _ =
        List.replicate (rest.length + 1) true
      rw [hret, List.replicate_succ]
      exact congrArg _ r1
    · show (enqueueAll cap self rest _).2.compilerQueueLength =
        s.compilerQueueLength + ((rest.length + 1 : Nat) : Int)
      rw [r4, hlen1]
      omega
    · show (enqueueAll cap self rest _).2.compilerWorkDequeueIndex = _
      rw [r5, hk.2]
    · show (liveSlots cap (enqueueAll cap self rest _).2).map CompilerWorkOrder.request = _
      rw [r6, hlive, List.map_append, List.append_assoc]
      rfl

/-- C14: for every capacity of at least `1`, from the queue `dvmCompilerStartup`
leaves with the code cache not marked full: enqueuing as many requests as the
capacity, with pairwise different addresses, returns true each time; one more
request is then answered false; one `workDequeue` returns the first request;
after it a request whose address is in no live slot is answered true, is written
to slot `0`, where the enqueue index has wrapped to, and the length is the
capacity again. -/
theorem fill_reject_drain_accept (cap self : Nat) (hcap : 1 ≤ cap) (env : StartupEnv)
    (s0 s : JitState) (hstart : dvmCompilerStartup cap env s0 = (true, s))
    (hnf : s.codeCacheFull = false) (reqs : List Request) (hlen : reqs.length = cap)
    (hdist : (reqs.map Prod.fst).Nodup) (extra sixth : Request)
    (_hextra : extra.1 ∉ reqs.map Prod.fst)
    (hsixth : sixth.1 ∉ (reqs.map Prod.fst).tail) :
    (enqueueAll cap self reqs s).1 = List.replicate cap true ∧
    (dvmCompilerWorkEnqueue cap self extra.1 extra.2.1 extra.2.2
      (afterFill cap self reqs s)).1 = false ∧
    reqs.head? = some (workDequeue cap (afterExtra cap self reqs extra s)).1.request ∧
    (dvmCompilerWorkEnqueue cap self sixth.1 sixth.2.1 sixth.2.2
      (afterDrainOne cap self reqs extra s)).1 = true ∧
    (afterDrainOne cap self reqs extra s).compilerWorkEnqueueIndex = 0 ∧
    (slot (dvmCompilerWorkEnqueue cap self sixth.1 sixth.2.1 sixth.2.2
      (afterDrainOne cap self reqs extra s)).2 0).request = sixth ∧
    JitState.compilerQueueLength (dvmCompilerWorkEnqueue cap self sixth.1 sixth.2.1 sixth.2.2
      (afterDrainOne cap self reqs extra s)).2 = (cap : Int) := by
  obtain ⟨_, _, hd0, hl0, _, _⟩ := startup_state cap env s0 s hstart
  have hc0 := consistent_startup cap (by omega) env s0 s hstart
  have hnone : ∀ q ∈ reqs, ¬ queued cap s q.1 := by
    rintro q _ ⟨k, hk, _⟩
    rw [hl0] at hk
    omega
  obtain ⟨r1, r2, r3, r4, r5, r6⟩ := enqueueAll_distinct cap self reqs s hc0 hnf
    (by rw [hl0, hlen]; omega) hdist hnone
  rw [hl0, hlen, Int.zero_add] at r4
  rw [liveSlots_nil cap s hl0, List.map_nil, List.nil_append] at r6
  rw [hlen] at r1
  rw [hd0] at r5
  have hAF : (enqueueAll cap self reqs s).2 = afterFill cap self reqs s := rfl
  rw [hAF] at r2 r3 r4 r5 r6
  have henq1 : (afterFill cap self reqs s).compilerWorkEnqueueIndex = 0 := by
    have h := r2.2
    rw [r4, r5] at h
    simpa using h
  have hfull1 : (afterFill cap self reqs s).compilerQueueLength = (cap : Int) ∨
      (afterFill cap self reqs s).codeCacheFull = true := Or.inl r4
  have hrej := enqueue_full cap self extra.1 extra.2.1 extra.2.2 _ hfull1
  have hS2 : afterExtra cap self reqs extra s = afterFill cap self reqs s := by
    unfold afterExtra
    rw [hrej]
  have hpos : 0 < (afterFill cap self reqs s).compilerQueueLength := by
    rw [r4]; omega
  have hlive := liveSlots_dequeue cap _ r2 hpos
  have hc3 := consistent_dequeue cap _ r2 hpos
  have hreq : reqs = (workDequeue cap (afterFill cap self reqs s)).1.request ::
      (liveSlots cap (workDequeue cap (afterFill cap self reqs s)).2).map
        CompilerWorkOrder.request := by
    have h := r6
    rw [hlive, List.map_cons] at h
    exact h.symm
  have hS3 : afterDrainOne cap self reqs extra s =
      (workDequeue cap (afterFill cap self reqs s)).2 := by
    unfold afterDrainOne
    rw [hS2]
  have hlen3 : (workDequeue cap (afterFill cap self reqs s)).2.compilerQueueLength =
      (cap : Int) - 1 := by
    show (afterFill cap self reqs s).compilerQueueLength - 1 = _
    rw [r4]
  have hfull3 : ¬ ((workDequeue cap (afterFill cap self reqs s)).2.compilerQueueLength =
        (cap : Int) ∨
      (workDequeue cap (afterFill cap self reqs s)).2.codeCacheFull = true) := by
    rw [hlen3]
    have h : (workDequeue cap (afterFill cap self reqs s)).2.codeCacheFull = false := r3
    rw [h]
    simp
  have hscan3 : ¬ alreadyEnqueued cap
      (workDequeue cap (afterFill cap self reqs s)).2.compilerWorkQueue sixth.1
      (workDequeue cap (afterFill cap self reqs s)).2.compilerQueueLength.toNat
      (workDequeue cap (afterFill cap self reqs s)).2.compilerWorkDequeueIndex = true := by
    intro hs
    have hq := (queued_iff_scan cap _ sixth.1 hc3.1.2.2.1).2 hs
    rw [← mem_livePcs, ← liveRequests_pcs] at hq
    apply hsixth
    rw [hreq, List.map_cons, List.tail_cons]
    exact hq
  have henq3 : (workDequeue cap (afterFill cap self reqs s)).2.compilerWorkEnqueueIndex = 0 :=
    henq1
  have hin : 0 < (workDequeue cap (afterFill cap self reqs s)).2.compilerWorkQueue.length := by
    rw [hc3.1.1]; omega
  refine ⟨r1, ?_, ?_, ?_, ?_, ?_, ?_⟩
  · rw [hrej]
  · rw [hS2]
    conv_lhs => rw [hreq]
    rfl
  · rw [hS3, enqueue_accept cap self _ _ _ _ hfull3 hscan3]
  · rw [hS3]; exact henq3
  · rw [hS3, enqueue_accept cap self _ _ _ _ hfull3 hscan3]
    show (((workDequeue cap (afterFill cap self reqs s)).2.compilerWorkQueue.set
      (workDequeue cap (afterFill cap self reqs s)).2.compilerWorkEnqueueIndex _).getD 0
        zeroOrder).request = sixth
    rw [henq3, getD_set, if_pos ⟨rfl, hin⟩]
    rfl
  · rw [hS3, enqueue_accept cap self _ _ _ _ hfull3 hscan3]
    show (workDequeue cap (afterFill cap self reqs s)).2.compilerQueueLength + 1 = (cap : Int)
    rw [hlen3]
    omega

/-- C14 witness: the scenario of the specification, with four slots and the
addresses `11` to `14`, then `15`, then `16`. -/
theorem fill_reject_drain_accept_witness :
    (1 ≤ 4 ∧ dvmCompilerStartup 4 goodEnv (blankJit 4) = (true, startJit 4) ∧
      (startJit 4).codeCacheFull = false ∧ fourRequests.length = 4 ∧
      (fourRequests.map Prod.fst).Nodup ∧
      (15 : Nat) ∉ fourRequests.map Prod.fst ∧
      (16 : Nat) ∉ (fourRequests.map Prod.fst).tail) ∧
    (enqueueAll 4 1 fourRequests (startJit 4)).1 = [true, true, true, true] ∧
    (dvmCompilerWorkEnqueue 4 1 15 kWorkOrderTrace 150
      (afterFill 4 1 fourRequests (startJit 4))).1 = false ∧
    (dvmCompilerWorkEnqueue 4 1 16 kWorkOrderTrace 160
      (afterDrainOne 4 1 fourRequests (15, kWorkOrderTrace, 150) (startJit 4))).1 = true :=
  have h := fill_reject_drain_accept 4 1 (by decide) goodEnv (blankJit 4) (startJit 4)
    startJit_startup (by decide) fourRequests (by decide) (by decide)
    (15, kWorkOrderTrace, 150) (16, kWorkOrderTrace, 160) (by decide) (by decide)
  ⟨⟨by decide, startJit_startup, by decide, by decide, by decide, by decide, by decide⟩,
   h.1, h.2.1, h.2.2.2.1⟩

/-! The loops of the compiler thread -/

theorem compileWork_fields (doWork : JitState → CompilerWorkOrder → DoWorkResult)
    (work : CompilerWorkOrder) (s : JitState) :
    (compileWork doWork work s).compilerQueueLength = s.compilerQueueLength ∧
    (compileWork doWork work s).haltCompilerThread = s.haltCompilerThread := by
  unfold compileWork
  dsimp only
  split_ifs <;> exact ⟨rfl, rfl⟩

theorem compilerThreadWork_length (cap self : Nat)
    (doWork : JitState → CompilerWorkOrder → DoWorkResult) (s : JitState) :
    (compilerThreadWork cap self doWork s).compilerQueueLength = s.compilerQueueLength - 1 ∨
    (compilerThreadWork cap self doWork s).compilerQueueLength = 0 := by
  rw [compilerThreadWork_eq]
  split_ifs
  · exact Or.inr rfl
  · left
    show (compileWork doWork (workDequeue cap s).1 (stateAtCompile cap s)).compilerQueueLength
      = _
    rw [(compileWork_fields doWork _ _).1, (stateAtCompile_fields cap s).2.2.1]

theorem compilerThreadWork_halt (cap self : Nat)
    (doWork : JitState → CompilerWorkOrder → DoWorkResult) (s : JitState) :
    (compilerThreadWork cap self doWork s).haltCompilerThread = s.haltCompilerThread := by
  rw [compilerThreadWork_eq]
  split_ifs
  · show (compileWork doWork (workDequeue cap s).1 (stateAtCompile cap s)).haltCompilerThread
      = _
    rw [(compileWork_fields doWork _ _).2, (stateAtCompile_fields cap s).1]
  · show (compileWork doWork (workDequeue cap s).1 (stateAtCompile cap s)).haltCompilerThread
      = _
    rw [(compileWork_fields doWork _ _).2, (stateAtCompile_fields cap s).1]

theorem workQueueLength_eq_false (s : JitState) :
    workQueueLength s = false ↔ s.compilerQueueLength = 0 := by
  unfold workQueueLength
  simp

theorem drainLoop_total (cap self : Nat)
    (doWork : JitState → CompilerWorkOrder → DoWorkResult) (P : JitState → Prop)
    (hP : ∀ t, P t → P (compilerThreadWork cap self doWork t)) :
    ∀ (m : Nat) (s : JitState), P s → 0 < s.compilerQueueLength →
      s.compilerQueueLength.toNat ≤ m →
      ∃ s1, (∀ n, m ≤ n → drainLoop cap self doWork n s = some s1) ∧
        s1.compilerQueueLength = 0 ∧ P s1 := by
  intro m
  induction m with
  | zero =>
    intro s _ hpos hm
    omega
  | succ m ih =>
    intro s hs hpos hm
    by_cases h0 : (compilerThreadWork cap self doWork s).compilerQueueLength = 0
    · refine ⟨compilerThreadWork cap self doWork s, ?_, h0, hP s hs⟩
      intro n hn
      obtain ⟨n1, rfl⟩ : ∃ n1, n = n1 + 1 := ⟨n - 1, by omega⟩
      have hw : ¬ workQueueLength (compilerThreadWork cap self doWork s) = true := by
        rw [Bool.not_eq_true, workQueueLength_eq_false]; exact h0
      simp only [drainLoop, if_neg hw]
    · have hlen : (compilerThreadWork cap self doWork s).compilerQueueLength =
          s.compilerQueueLength - 1 := by
        rcases compilerThreadWork_length cap self doWork s with h | h
        · exact h
        · exact absurd h h0
      obtain ⟨s1, hrun, hz, hp1⟩ := ih (compilerThreadWork cap self doWork s) (hP s hs)
        (by rw [hlen] at h0 ⊢; omega) (by rw [hlen]; omega)
      refine ⟨s1, ?_, hz, hp1⟩
      intro n hn
      obtain ⟨n1, rfl⟩ : ∃ n1, n = n1 + 1 := ⟨n - 1, by omega⟩
      have hw : workQueueLength (compilerThreadWork cap self doWork s) = true := by
        cases hb : workQueueLength (compilerThreadWork cap self doWork s) with
        | true => rfl
        | false => exact absurd ((workQueueLength_eq_false _).1 hb) h0
      simp only [drainLoop, if_pos hw]
      exact hrun n1 (by omega)

theorem halt_step (cap self : Nat) (doWork : JitState → CompilerWorkOrder → DoWorkResult)
    (s : JitState) (hhalt : s.haltCompilerThread = true) :
    compiled (compilerThreadWork cap self doWork s) = compiled s ∧
    installs (compilerThreadWork cap self doWork s) = installs s := by
  have hh2 : (stateAtCompile cap s).haltCompilerThread = true := by
    rw [(stateAtCompile_fields cap s).1]; exact hhalt
  rw [compiled_compilerThreadWork, installs_compilerThreadWork,
    compileWork_halt doWork _ _ hh2, compiled_stateAtCompile, installs_stateAtCompile]
  exact ⟨rfl, rfl⟩

/-! The crawl of the stack frames -/

theorem frameChain_congr (mem mem1 : StackMemory)
    (h : ∀ a, (mem1 a).prevFrame = (mem a).prevFrame) :
    ∀ (addrs : List Nat) (fp : Nat), FrameChain mem fp addrs → FrameChain mem1 fp addrs := by
  intro addrs
  induction addrs with
  | nil =>
    intro fp hc
    cases hc
    exact FrameChain.done
  | cons a rest ih =>
    intro fp hc
    cases hc with
    | link _ _ hne hrest =>
      refine FrameChain.link a rest hne ?_
      rw [h a]
      exact ih _ hrest

theorem crawlFrames_null (n : Nat) (mem : StackMemory) : crawlFrames n mem 0 = some mem := by
  cases n <;> simp [crawlFrames]

theorem crawlFrames_chain :
    ∀ (addrs : List Nat) (mem : StackMemory) (fp : Nat), FrameChain mem fp addrs →
      ∃ mem1, (∀ n, addrs.length ≤ n → crawlFrames n mem fp = some mem1) ∧
        (∀ a, (mem1 a).prevFrame = (mem a).prevFrame) ∧
        (∀ a, a ∈ addrs → (mem1 a).area = { returnAddr := 0, rest := (mem a).area.rest }) ∧
        (∀ a, a ∉ addrs → mem1 a = mem a) := by
  intro addrs
  induction addrs with
  | nil =>
    intro mem fp hc
    cases hc
    exact ⟨mem, fun n _ => crawlFrames_null n mem, fun _ => rfl,
      fun a ha => absurd ha (List.not_mem_nil a), fun _ _ => rfl⟩
  | cons b rest ih =>
    intro mem fp hc
    cases hc with
    | link _ _ hne hrest =>
      have hupd : ∀ a, (Function.update mem b
          { mem b with area := { (mem b).area with returnAddr := 0 } } a).prevFrame =
          (mem a).prevFrame := by
        intro a
        by_cases hab : a = b
        · subst hab; simp
        · simp [Function.update_noteq hab]
      obtain ⟨mem1, hrun, hprev, hin, hout⟩ := ih _ _
        (frameChain_congr mem _ hupd rest _ hrest)
      refine ⟨mem1, ?_, fun a => (hprev a).trans (hupd a), ?_, ?_⟩
      · intro n hn
        obtain ⟨n1, rfl⟩ : ∃ n1, n = n1 + 1 :=
          ⟨n - 1, by simp only [List.length_cons] at hn; omega⟩
        simp only [crawlFrames, if_neg hne]
        exact hrun n1 (by simp only [List.length_cons] at hn; omega)
      · intro a ha
        by_cases hab : a = b
        · subst hab
          by_cases hr : a ∈ rest
          · rw [hin a hr]; simp
          · rw [hout a hr]; simp
        · have hr : a ∈ rest := by
            rcases List.mem_cons.1 ha with h | h
            · exact absurd h hab
            · exact h
          rw [hin a hr, Function.update_noteq hab]
      · intro a ha
        have hab : a ≠ b := fun h => ha (h ▸ List.mem_cons_self _ _)
        have hr : a ∉ rest := fun h => ha (List.mem_cons_of_mem _ h)
        rw [hout a hr, Function.update_noteq hab]

theorem chainFrames_wiped (mem mem1 : StackMemory) (addrs : List Nat)
    (hin : ∀ a, a ∈ addrs → (mem1 a).area = { returnAddr := 0, rest := (mem a).area.rest }) :
    chainFrames mem1 addrs = wipeReturnAddrs (chainFrames mem addrs) := by
  unfold chainFrames wipeReturnAddrs
  rw [List.map_map]
  apply List.map_congr_left
  intro a ha
  rw [hin a ha]
  rfl

/-- C16: after `resetCodeCache` the thread list has the same threads in the same
order; the frames of the calling thread are as before; every frame of every
other thread has `returnAddr = NULL` and the rest of the save area as before.
On memory, the crawl from the frame pointer of a chain of frames linked by
`prevFrame` and ending at `NULL` comes to an end with any fuel of at least the
number of frames, leaves every `prevFrame` link and every save area outside the
chain as it was, and wipes the return addresses of the chain; from a `NULL`
frame pointer it visits no frame. -/
theorem return_address_scrub (cap self : Nat) (s : JitState) :
    ((resetCodeCache cap self s).threadList.length = s.threadList.length ∧
      ∀ (i : Nat) (t : Thread), s.threadList[i]? = some t →
        ∃ t1, (resetCodeCache cap self s).threadList[i]? = some t1 ∧ t1.self = t.self ∧
          (t.self = self → t1.frames = t.frames) ∧
          (t.self ≠ self → t1.frames.length = t.frames.length ∧
            ∀ (j : Nat) (f : StackSaveArea), t.frames[j]? = some f →
              t1.frames[j]? = some { returnAddr := 0, rest := f.rest })) ∧
    (∀ (mem : StackMemory) (fp : Nat) (addrs : List Nat), FrameChain mem fp addrs →
      ∃ mem1, (∀ n, addrs.length ≤ n → crawlFrames n mem fp = some mem1) ∧
        FrameChain mem1 fp addrs ∧
        (∀ a, (mem1 a).prevFrame = (mem a).prevFrame) ∧
        (∀ a, a ∉ addrs → mem1 a = mem a) ∧
        chainFrames mem1 addrs = wipeReturnAddrs (chainFrames mem addrs)) ∧
    (∀ mem : StackMemory, crawlFrames 0 mem 0 = some mem) := by
  refine ⟨⟨?_, ?_⟩, ?_, fun mem => crawlFrames_null 0 mem⟩
  · simp [resetCodeCache]
  · intro i t hi
    have hmap : (resetCodeCache cap self s).threadList[i]? =
        some (if t.self = self then t
          else { t with frames := wipeReturnAddrs t.frames }) := by
      show (s.threadList.map _)[i]? = _
      rw [List.getElem?_map, hi]
      rfl
    refine ⟨_, hmap, ?_, ?_, ?_⟩
    · split_ifs <;> rfl
    · intro hself
      rw [if_pos hself]
    · intro hself
      rw [if_neg hself]
      refine ⟨by simp [wipeReturnAddrs], ?_⟩
      intro j f hj
      show (t.frames.map _)[j]? = _
      rw [List.getElem?_map, hj]
      rfl
  · intro mem fp addrs hc
    obtain ⟨mem1, hrun, hprev, hin, hout⟩ := crawlFrames_chain addrs mem fp hc
    exact ⟨mem1, hrun, frameChain_congr mem mem1 hprev addrs fp hc, hprev, hout,
      chainFrames_wiped mem mem1 addrs hin⟩

theorem twoFrames_chain : FrameChain twoFrames 8 [8, 16] :=
  FrameChain.link 8 [16] (by decide)
    (FrameChain.link 16 [] (by decide) FrameChain.done)

/-- C16 witness: the thread `6` of `threadsJit` after a reset by the thread `5`,
and the crawl of the two frames at `8` and `16`. -/
theorem return_address_scrub_witness :
    (threadsJit.threadList[1]? =
        some { self := 6, frames := [{ returnAddr := 100, rest := 1 },
          { returnAddr := 200, rest := 2 }] } ∧
      ∃ t1, (resetCodeCache 4 5 threadsJit).threadList[1]? = some t1 ∧ t1.self = 6) ∧
    (FrameChain twoFrames 8 [8, 16] ∧
      ∃ mem1, crawlFrames 2 twoFrames 8 = some mem1 ∧
        chainFrames mem1 [8, 16] = wipeReturnAddrs (chainFrames twoFrames [8, 16])) :=
  ⟨⟨by decide,
    ((return_address_scrub 4 5 threadsJit).1.2 1
      { self := 6, frames := [{ returnAddr := 100, rest := 1 },
          { returnAddr := 200, rest := 2 }] } (by decide)).elim
      (fun t1 h => ⟨t1, h.1, h.2.1⟩)⟩,
   ⟨twoFrames_chain,
    ((return_address_scrub 4 5 threadsJit).2.1 twoFrames 8 [8, 16] twoFrames_chain).elim
      (fun mem1 h => ⟨mem1, h.1 2 (by decide), h.2.2.2.2⟩)⟩⟩

/-! `dvmCompilerDrainQueue` -/

theorem drainQueue_exit : ∀ (wake : List JitState) (s s1 : JitState) (n : Nat),
    dvmCompilerDrainQueue wake s = some (s1, n) →
      s1.compilerQueueLength = 0 ∨ s1.haltCompilerThread = true := by
  have hstop : ∀ s : JitState,
      ¬ (workQueueLength s = true ∧ s.haltCompilerThread = false) →
      s.compilerQueueLength = 0 ∨ s.haltCompilerThread = true := by
    intro s hc
    by_cases hl : s.compilerQueueLength = 0
    · exact Or.inl hl
    · right
      cases hh : s.haltCompilerThread with
      | true => rfl
      | false =>
        exfalso
        apply hc
        refine ⟨?_, hh⟩
        cases hb : workQueueLength s with
        | true => rfl
        | false => exact absurd ((workQueueLength_eq_false s).1 hb) hl
  intro wake
  induction wake with
  | nil =>
    intro s s1 n h
    unfold dvmCompilerDrainQueue at h
    split_ifs at h with hc
    simp only [Option.some.injEq, Prod.mk.injEq] at h
    rw [← h.1]
    exact hstop s hc
  | cons s2 wake ih =>
    intro s s1 n h
    unfold dvmCompilerDrainQueue at h
    split_ifs at h with hc
    · cases hr : dvmCompilerDrainQueue wake s2 with
      | none => rw [hr] at h; simp at h
      | some r =>
        rw [hr] at h
        simp only [Option.map_some', Option.some.injEq, Prod.mk.injEq] at h
        have hr2 : dvmCompilerDrainQueue wake s2 = some (r.1, r.2) := hr
        rw [← h.1]
        exact ih s2 r.1 r.2 hr2
    · simp only [Option.some.injEq, Prod.mk.injEq] at h
      rw [← h.1]
      exact hstop s hc

/-- C17: called with a length of `0`, or with a halt pending,
`dvmCompilerDrainQueue` returns without a wait and leaves the state as it was,
whatever the other threads would do; whenever it returns, the length is `0` or
a halt is pending. -/
theorem drainQueue_returns (s : JitState) :
    ((s.compilerQueueLength = 0 ∨ s.haltCompilerThread = true) →
      ∀ wake, dvmCompilerDrainQueue wake s = some (s, 0)) ∧
    (∀ wake s1 n, dvmCompilerDrainQueue wake s = some (s1, n) →
      s1.compilerQueueLength = 0 ∨ s1.haltCompilerThread = true) := by
  refine ⟨?_, fun wake s1 n h => drainQueue_exit wake s s1 n h⟩
  intro h wake
  have hc : ¬ (workQueueLength s = true ∧ s.haltCompilerThread = false) := by
    rintro ⟨hw, hh⟩
    rcases h with h | h
    · have := (workQueueLength_eq_false s).2 h
      rw [this] at hw
      exact absurd hw (by decide)
    · rw [h] at hh
      exact absurd hh (by decide)
  cases wake with
  | nil => simp only [dvmCompilerDrainQueue, if_neg hc]
  | cons s2 wake => simp only [dvmCompilerDrainQueue, if_neg hc]

/-- C17 witness: on the empty queue after start-up the function returns at
once; on `onceQueued` it waits once and returns when the queue is empty. -/
theorem drainQueue_returns_witness :
    ((startJit 4).compilerQueueLength = 0 ∧
      dvmCompilerDrainQueue [onceQueued] (startJit 4) = some (startJit 4, 0)) ∧
    (dvmCompilerDrainQueue [startJit 4] onceQueued = some (startJit 4, 1) ∧
      ((startJit 4).compilerQueueLength = 0 ∨ (startJit 4).haltCompilerThread = true)) :=
  ⟨⟨by decide, (drainQueue_returns (startJit 4)).1 (Or.inl (by decide)) [onceQueued]⟩,
   ⟨by decide, (drainQueue_returns onceQueued).2 [startJit 4] (startJit 4) 1 (by decide)⟩⟩

/-! The high water mark -/

theorem enqueue_ignores_highWater (cap self pc : Nat) (kind : WorkOrderKind) (info : Nat)
    (s : JitState) (hw : Int) :
    (dvmCompilerWorkEnqueue cap self pc kind info { s with compilerHighWater := hw }).1 =
      (dvmCompilerWorkEnqueue cap self pc kind info s).1 := by
  by_cases h : s.compilerQueueLength = (cap : Int) ∨ s.codeCacheFull = true
  · rw [enqueue_full cap self pc kind info s h,
      enqueue_full cap self pc kind info { s with compilerHighWater := hw } h]
  · by_cases hscan : alreadyEnqueued cap s.compilerWorkQueue pc
        s.compilerQueueLength.toNat s.compilerWorkDequeueIndex = true
    · rw [enqueue_duplicate cap self pc kind info s h hscan,
        enqueue_duplicate cap self pc kind info { s with compilerHighWater := hw } h hscan]
    · rw [enqueue_accept cap self pc kind info s h hscan,
        enqueue_accept cap self pc kind info { s with compilerHighWater := hw } h hscan]

/-- C18 (as the code has it): `dvmCompilerStartup` leaves the high water mark at
`0`; the compiler thread raises it to the capacity minus a quarter of the
capacity rounded down, a value `h` with `3 * cap ≤ 4 * h ≤ 3 * cap + 3`, equal to
three quarters of the capacity when the capacity is a multiple of `4` and below
the capacity when the capacity is at least `4`; what `dvmCompilerWorkEnqueue`
returns does not depend on the high water mark. -/
theorem high_water_mark (cap : Nat) :
    (∀ env s0 s, dvmCompilerStartup cap env s0 = (true, s) → s.compilerHighWater = 0) ∧
    (∀ s, (compilerThreadInit cap s).compilerHighWater = (cap : Int) - (cap : Int) / 4 ∧
      3 * (cap : Int) ≤ 4 * (compilerThreadInit cap s).compilerHighWater ∧
      4 * (compilerThreadInit cap s).compilerHighWater ≤ 3 * (cap : Int) + 3 ∧
      (cap % 4 = 0 → 4 * (compilerThreadInit cap s).compilerHighWater = 3 * (cap : Int)) ∧
      (4 ≤ cap → (compilerThreadInit cap s).compilerHighWater < (cap : Int))) ∧
    (∀ self pc kind info s hw,
      (dvmCompilerWorkEnqueue cap self pc kind info { s with compilerHighWater := hw }).1 =
        (dvmCompilerWorkEnqueue cap self pc kind info s).1) := by
  refine ⟨fun env s0 s h => (startup_state cap env s0 s h).2.2.2.2.1, ?_,
    fun self pc kind info s hw => enqueue_ignores_highWater cap self pc kind info s hw⟩
  intro s
  have hv : (compilerThreadInit cap s).compilerHighWater = (cap : Int) - (cap : Int) / 4 := rfl
  rw [hv]
  refine ⟨rfl, ?_, ?_, ?_, ?_⟩
  · omega
  · omega
  · intro h4; omega
  · intro h4; omega

/-- C18 witness: with four slots the high water mark becomes `3`. -/
theorem high_water_mark_witness :
    (dvmCompilerStartup 4 goodEnv (blankJit 4) = (true, startJit 4) ∧
      (startJit 4).compilerHighWater = 0) ∧
    (4 % 4 = 0 ∧ 4 ≤ 4 ∧
      4 * (compilerThreadInit 4 (startJit 4)).compilerHighWater = 3 * ((4 : Nat) : Int) ∧
      (compilerThreadInit 4 (startJit 4)).compilerHighWater < ((4 : Nat) : Int)) :=
  ⟨⟨startJit_startup, (high_water_mark 4).1 goodEnv (blankJit 4) (startJit 4) startJit_startup⟩,
   ⟨by decide, by decide,
    ((high_water_mark 4).2.1 (startJit 4)).2.2.2.1 (by decide),
    ((high_water_mark 4).2.1 (startJit 4)).2.2.2.2 (by decide)⟩⟩

/-- C18 fails as stated: with six slots the high water mark becomes `5`, and four
times `5` is not three times `6`; with two slots it becomes `2`, which is not
below the capacity. -/
theorem high_water_mark_not_three_quarters :
    (compilerThreadInit 6 (startJit 6)).compilerHighWater = 5 ∧
    ¬ (4 * (compilerThreadInit 6 (startJit 6)).compilerHighWater = 3 * ((6 : Nat) : Int)) ∧
    (compilerThreadInit 2 (startJit 2)).compilerHighWater = 2 ∧
    ¬ ((compilerThreadInit 2 (startJit 2)).compilerHighWater < ((2 : Nat) : Int)) := by
  decide

/-! The maximum observed length -/

theorem workDequeue_maxQueued (cap : Nat) (s : JitState) :
    (workDequeue cap s).2.compilerMaxQueued =
      max s.compilerMaxQueued (s.compilerQueueLength - 1) := by
  show (if s.compilerQueueLength - 1 > s.compilerMaxQueued then s.compilerQueueLength - 1
    else s.compilerMaxQueued) = _
  split_ifs with h
  · rw [max_eq_right (le_of_lt h)]
  · rw [max_eq_left (not_lt.1 h)]

/-- C19 fails on the code: from the state left by start-up, with
`compilerMaxQueued` at `0`, two accepted requests and one dequeue take the
length through `0`, `1`, `2`, `1`, so its largest value is `2`, but
`compilerMaxQueued` ends at `1`: `workDequeue` compares after the decrement. -/
theorem maxQueued_misses_peak :
    (startJit 4).compilerMaxQueued = 0 ∧
    runFrom 4 (QueueRun.start (startJit 4)) peakOps = some peakRun ∧
    peakLength 4 (QueueRun.start (startJit 4)) peakOps = 2 ∧
    peakRun.jit.compilerMaxQueued = 1 ∧
    peakRun.jit.compilerMaxQueued ≠ peakLength 4 (QueueRun.start (startJit 4)) peakOps := by
  decide

/-! The indices -/

theorem consistent_step (cap : Nat) (hcap : 0 < cap) (r r1 : QueueRun) (op : QueueOp)
    (h : Consistent cap r.jit) (_hop : (fun _ => true) op = true)
    (hstep : runStep cap r op = some r1) : Consistent cap r1.jit := by
  cases op with
  | enqueue self pc kind info =>
    simp only [runStep, Option.some.injEq] at hstep
    subst hstep
    exact consistent_enqueue cap self pc kind info r.jit h
  | dequeue =>
    simp only [runStep] at hstep
    split_ifs at hstep with hpos
    simp only [Option.some.injEq] at hstep
    subst hstep
    exact consistent_dequeue cap r.jit h hpos
  | reset self =>
    simp only [runStep, Option.some.injEq] at hstep
    subst hstep
    exact consistent_reset cap self hcap r.jit

theorem scanVisited_eq (cap : Nat) : ∀ (n i : Nat), i < cap →
    scanVisited cap n i = (List.range n).map (fun k => (i + k) % cap) := by
  intro n
  induction n with
  | zero => intro i _; rfl
  | succ n ih =>
    intro i hi
    have hnext : (if i + 1 = cap then 0 else i + 1) < cap := by
      rw [wrap_eq_mod hi]; exact Nat.mod_lt _ (by omega)
    have e : (i + 0) % cap = i := by simp [Nat.mod_eq_of_lt hi]
    rw [scanVisited, ih _ hnext, List.range_succ_eq_map, List.map_cons, List.map_map, e]
    congr 1
    apply List.map_congr_left
    intro k _
    show ((if i + 1 = cap then 0 else i + 1) + k) % cap = (i + (k + 1)) % cap
    rw [wrap_eq_mod hi, Nat.mod_add_mod]
    congr 1; omega

theorem enqueue_slot_not_live (cap : Nat) (s : JitState) (h : Consistent cap s)
    (hroom : s.compilerQueueLength ≠ (cap : Int)) :
    ¬ isLive cap s s.compilerWorkEnqueueIndex := by
  obtain ⟨⟨_, _, _, h0, hle⟩, hidx⟩ := h
  rintro ⟨k, hk, hj⟩
  unfold liveIndex at hj
  rw [hidx] at hj
  have := liveIndex_inj (by omega) (by omega) hj
  omega

/-- C20: with a capacity of at least `1`, in every state reached from the state
`dvmCompilerStartup` leaves by `dvmCompilerWorkEnqueue`, `workDequeue` (with a
positive length) and `resetCodeCache`, both indices are below the capacity and
the enqueue index is the dequeue index plus the length, modulo the capacity; so
the slot an enqueue writes is not a live slot, and the scan of the enqueue reads
the indices of the live slots, in order, all of them inside the array. -/
theorem index_consistency (cap : Nat) (hcap : 0 < cap) (env : StartupEnv) (s0 s : JitState)
    (ops : List QueueOp) (r : QueueRun)
    (hstart : dvmCompilerStartup cap env s0 = (true, s))
    (hrun : runFrom cap (QueueRun.start s) ops = some r) :
    r.jit.compilerWorkEnqueueIndex < cap ∧ r.jit.compilerWorkDequeueIndex < cap ∧
    r.jit.compilerWorkEnqueueIndex =
      (r.jit.compilerWorkDequeueIndex + r.jit.compilerQueueLength.toNat) % cap ∧
    (∀ self pc kind info, (dvmCompilerWorkEnqueue cap self pc kind info r.jit).2 ≠ r.jit →
      ¬ isLive cap r.jit r.jit.compilerWorkEnqueueIndex) ∧
    scanVisited cap r.jit.compilerQueueLength.toNat r.jit.compilerWorkDequeueIndex =
      (List.range r.jit.compilerQueueLength.toNat).map (liveIndex cap r.jit) ∧
    (∀ i, i ∈ scanVisited cap r.jit.compilerQueueLength.toNat
        r.jit.compilerWorkDequeueIndex → i < r.jit.compilerWorkQueue.length) := by
  have hc : Consistent cap r.jit :=
    run_invariant cap (fun r => Consistent cap r.jit) (fun _ => true)
      (consistent_step cap hcap) ops (QueueRun.start s) r
      (consistent_startup cap hcap env s0 s hstart) (all_true ops) hrun
  have hscan := scanVisited_eq cap r.jit.compilerQueueLength.toNat
    r.jit.compilerWorkDequeueIndex hc.1.2.2.1
  refine ⟨hc.1.2.1, hc.1.2.2.1, hc.2, ?_, hscan, ?_⟩
  · intro self pc kind info hne
    rcases enqueue_cases cap self pc kind info r.jit with h1 | ⟨hfull, _, _⟩
    · exact absurd h1 hne
    · exact enqueue_slot_not_live cap r.jit hc (fun h => hfull (Or.inl h))
  · intro i hi
    rw [hscan, List.mem_map] at hi
    obtain ⟨k, _, hk⟩ := hi
    rw [hc.1.1, ← hk]
    exact Nat.mod_lt _ hcap

/-- C20 witness: the end of the run `fifoOps`, where the indices have wrapped. -/
theorem index_consistency_witness :
    (0 < 4 ∧ dvmCompilerStartup 4 goodEnv (blankJit 4) = (true, startJit 4) ∧
      runFrom 4 (QueueRun.start (startJit 4)) fifoOps = some fifoRun) ∧
    fifoRun.jit.compilerWorkDequeueIndex = 3 ∧ fifoRun.jit.compilerQueueLength = 2 ∧
    fifoRun.jit.compilerWorkEnqueueIndex =
      (fifoRun.jit.compilerWorkDequeueIndex + fifoRun.jit.compilerQueueLength.toNat) % 4 ∧
    scanVisited 4 fifoRun.jit.compilerQueueLength.toNat fifoRun.jit.compilerWorkDequeueIndex =
      (List.range fifoRun.jit.compilerQueueLength.toNat).map (liveIndex 4 fifoRun.jit) :=
  have h := index_consistency 4 (by decide) goodEnv (blankJit 4) (startJit 4) fifoOps fifoRun
    startJit_startup fifoRun_run
  ⟨⟨by decide, startJit_startup, fifoRun_run⟩, by decide, by decide, h.2.2.1, h.2.2.2.2.1⟩

/-! The halt of the compiler thread -/

theorem freed_workDequeue (cap : Nat) (s : JitState) :
    freed (workDequeue cap s).2 = freed s := by
  unfold workDequeue freed
  dsimp only
  split_ifs <;> simp [List.filterMap_append]

theorem freed_checkJitTable (s : JitState) : freed (checkJitTable s) = freed s := by
  unfold checkJitTable freed
  split_ifs <;> simp [List.filterMap_append]

theorem freed_stateAtCompile (cap : Nat) (s : JitState) :
    freed (stateAtCompile cap s) = freed s := by
  unfold stateAtCompile
  rw [freed_checkJitTable]
  have h : freed { (workDequeue cap s).2 with
      calls := (workDequeue cap s).2.calls ++ [Call.dvmCheckSuspendPending] } =
      freed (workDequeue cap s).2 := by
    simp [freed, List.filterMap_append]
  rw [h, freed_workDequeue]

theorem freed_compileWork (doWork : JitState → CompilerWorkOrder → DoWorkResult)
    (work : CompilerWorkOrder) (s : JitState) :
    freed (compileWork doWork work s) = freed s := by
  unfold compileWork freed
  dsimp only
  split_ifs <;> simp [List.filterMap_append]

theorem freed_compilerThreadWork (cap self : Nat)
    (doWork : JitState → CompilerWorkOrder → DoWorkResult) (s : JitState) :
    freed (compilerThreadWork cap self doWork s) = freed s ++ [(workDequeue cap s).1.info] := by
  have hfree : ∀ (t : JitState) (q : Nat),
      freed { t with calls := t.calls ++ [Call.free q] } = freed t ++ [q] := by
    intro t q
    simp [freed, List.filterMap_append]
  have hreset : ∀ t : JitState, freed (resetCodeCache cap self t) = freed t := by
    intro t
    simp [freed, resetCodeCache, List.filterMap_append]
  rw [compilerThreadWork_eq]
  split_ifs
  · rw [hreset, hfree, freed_compileWork, freed_stateAtCompile]
  · rw [hfree, freed_compileWork, freed_stateAtCompile]

theorem checkJitTable_queue (s : JitState) :
    (checkJitTable s).compilerWorkQueue = s.compilerWorkQueue ∧
    (checkJitTable s).compilerWorkEnqueueIndex = s.compilerWorkEnqueueIndex ∧
    (checkJitTable s).compilerWorkDequeueIndex = s.compilerWorkDequeueIndex := by
  unfold checkJitTable
  split_ifs <;> exact ⟨rfl, rfl, rfl⟩

theorem halt_step_eq (cap self : Nat)
    (doWork : JitState → CompilerWorkOrder → DoWorkResult) (s : JitState)
    (hhalt : s.haltCompilerThread = true) (hnf : s.codeCacheFull = false) :
    compilerThreadWork cap self doWork s =
      { stateAtCompile cap s with
        calls := (stateAtCompile cap s).calls ++ [Call.free (workDequeue cap s).1.info] } := by
  have hh2 : (stateAtCompile cap s).haltCompilerThread = true := by
    rw [(stateAtCompile_fields cap s).1]; exact hhalt
  have hf2 : ¬ (stateAtCompile cap s).codeCacheFull = true := by
    rw [(stateAtCompile_fields cap s).2.2.2, hnf]; decide
  rw [compilerThreadWork_eq, compileWork_halt doWork _ _ hh2, if_neg hf2]

theorem halt_step_queue (cap self : Nat)
    (doWork : JitState → CompilerWorkOrder → DoWorkResult) (s : JitState)
    (hhalt : s.haltCompilerThread = true) (hnf : s.codeCacheFull = false) :
    (compilerThreadWork cap self doWork s).compilerWorkQueue =
      (workDequeue cap s).2.compilerWorkQueue ∧
    (compilerThreadWork cap self doWork s).compilerWorkEnqueueIndex =
      (workDequeue cap s).2.compilerWorkEnqueueIndex ∧
    (compilerThreadWork cap self doWork s).compilerWorkDequeueIndex =
      (workDequeue cap s).2.compilerWorkDequeueIndex ∧
    (compilerThreadWork cap self doWork s).compilerQueueLength = s.compilerQueueLength - 1 ∧
    (compilerThreadWork cap self doWork s).codeCacheFull = false := by
  rw [halt_step_eq cap self doWork s hhalt hnf]
  obtain ⟨h1, h2, h3⟩ := checkJitTable_queue
    { (workDequeue cap s).2 with
      calls := (workDequeue cap s).2.calls ++ [Call.dvmCheckSuspendPending] }
  obtain ⟨_, _, h4, h5⟩ := stateAtCompile_fields cap s
  exact ⟨h1, h2, h3, h4, h5.trans hnf⟩

theorem liveSlots_congr (cap : Nat) (t u : JitState)
    (hq : t.compilerWorkQueue = u.compilerWorkQueue)
    (hd : t.compilerWorkDequeueIndex = u.compilerWorkDequeueIndex)
    (hl : t.compilerQueueLength = u.compilerQueueLength) :
    liveSlots cap t = liveSlots cap u := by
  unfold liveSlots slot liveIndex
  rw [hq, hd, hl]

theorem consistent_congr (cap : Nat) (t u : JitState)
    (hq : t.compilerWorkQueue = u.compilerWorkQueue)
    (he : t.compilerWorkEnqueueIndex = u.compilerWorkEnqueueIndex)
    (hd : t.compilerWorkDequeueIndex = u.compilerWorkDequeueIndex)
    (hl : t.compilerQueueLength = u.compilerQueueLength) (h : Consistent cap u) :
    Consistent cap t := by
  unfold Consistent QueueState at h ⊢
  rw [hq, he, hd, hl]
  exact h

theorem drain_halt_iterate (cap self : Nat)
    (doWork : JitState → CompilerWorkOrder → DoWorkResult) :
    ∀ (m : Nat) (s : JitState), s.haltCompilerThread = true → s.codeCacheFull = false →
      0 < s.compilerQueueLength → s.compilerQueueLength.toNat ≤ m →
      drainLoop cap self doWork m s =
        some ((compilerThreadWork cap self doWork)^[s.compilerQueueLength.toNat] s) := by
  intro m
  induction m with
  | zero =>
    intro s _ _ hpos hm
    omega
  | succ m ih =>
    intro s hhalt hnf hpos hm
    obtain ⟨_, _, _, hlen, hnf1⟩ := halt_step_queue cap self doWork s hhalt hnf
    have hhalt1 := (compilerThreadWork_halt cap self doWork s).trans hhalt
    have hk : s.compilerQueueLength.toNat = (s.compilerQueueLength - 1).toNat + 1 := by omega
    by_cases h0 : s.compilerQueueLength - 1 = 0
    · have hw : ¬ workQueueLength (compilerThreadWork cap self doWork s) = true := by
        rw [Bool.not_eq_true, workQueueLength_eq_false, hlen]; exact h0
      simp only [drainLoop, if_neg hw]
      rw [hk, h0]
      rfl
    · have hw : workQueueLength (compilerThreadWork cap self doWork s) = true := by
        cases hb : workQueueLength (compilerThreadWork cap self doWork s) with
        | true => rfl
        | false =>
          rw [workQueueLength_eq_false, hlen] at hb
          exact absurd hb h0
      simp only [drainLoop, if_pos hw]
      rw [ih _ hhalt1 hnf1 (by rw [hlen]; omega) (by rw [hlen]; omega), hlen, hk,
        Function.iterate_succ_apply]

theorem drain_halt_freed (cap self : Nat)
    (doWork : JitState → CompilerWorkOrder → DoWorkResult) :
    ∀ (k : Nat) (s : JitState), Consistent cap s → s.haltCompilerThread = true →
      s.codeCacheFull = false → s.compilerQueueLength.toNat = k →
      freed ((compilerThreadWork cap self doWork)^[k] s) =
        freed s ++ (liveSlots cap s).map (fun w => w.info) := by
  intro k
  induction k with
  | zero =>
    intro s _ _ _ hk
    simp [liveSlots, hk]
  | succ k ih =>
    intro s hc hhalt hnf hk
    have hpos : 0 < s.compilerQueueLength := by omega
    obtain ⟨hq, he, hd, hlen, hnf1⟩ := halt_step_queue cap self doWork s hhalt hnf
    have hhalt1 := (compilerThreadWork_halt cap self doWork s).trans hhalt
    have hc1 : Consistent cap (compilerThreadWork cap self doWork s) :=
      consistent_congr cap _ _ hq he hd hlen (consistent_dequeue cap s hc hpos)
    have hlive : liveSlots cap (compilerThreadWork cap self doWork s) =
        liveSlots cap (workDequeue cap s).2 :=
      liveSlots_congr cap _ _ hq hd hlen
    rw [Function.iterate_succ_apply, ih _ hc1 hhalt1 hnf1 (by rw [hlen]; omega),
      freed_compilerThreadWork, hlive, liveSlots_dequeue cap s hc hpos, List.map_cons,
      List.append_assoc]
    rfl

/-- C15 (as the code has it): when a halt is pending, the work of the compiler
thread on a dequeued order calls neither `dvmCompilerDoWork` nor
`dvmJitSetCodeAddr` and frees the payload of that order; the drain loop entered
with a positive length ends, with any fuel of at least the length, in a state of
length `0` with no compilation and no installation made on the way; when the
code cache is not marked full it has run the loop body once per queued order,
and on a consistent queue it has freed the payloads of the live slots, each
once, oldest first; from that state the outer loop exits.  When it is the test
of the outer loop that finds the halt, the thread exits at once, the queue left
as it is. -/
theorem halt_discards_work (cap self : Nat)
    (doWork : JitState → CompilerWorkOrder → DoWorkResult) (s : JitState)
    (hhalt : s.haltCompilerThread = true) :
    (compiled (compilerThreadWork cap self doWork s) = compiled s ∧
      installs (compilerThreadWork cap self doWork s) = installs s ∧
      freed (compilerThreadWork cap self doWork s) =
        freed s ++ [(workDequeue cap s).1.info]) ∧
    (0 < s.compilerQueueLength →
      ∃ s1, (∀ n, s.compilerQueueLength.toNat ≤ n →
          drainLoop cap self doWork n s = some s1) ∧
        s1.compilerQueueLength = 0 ∧ s1.haltCompilerThread = true ∧
        compiled s1 = compiled s ∧ installs s1 = installs s ∧
        (s.codeCacheFull = false →
          s1 = (compilerThreadWork cap self doWork)^[s.compilerQueueLength.toNat] s) ∧
        (Consistent cap s → s.codeCacheFull = false →
          freed s1 = freed s ++ (liveSlots cap s).map (fun w => w.info)) ∧
        (∀ fuel, compilerThreadLoop cap self doWork (fuel + 1) s1 =
          some (ThreadStop.exited { s1 with calls := s1.calls ++ [Call.signalEmpty] }))) ∧
    (∀ fuel, compilerThreadLoop cap self doWork (fuel + 1) s =
      some (ThreadStop.exited { s with calls := s.calls ++ [Call.signalEmpty] })) := by
  refine ⟨⟨(halt_step cap self doWork s hhalt).1, (halt_step cap self doWork s hhalt).2,
    freed_compilerThreadWork cap self doWork s⟩, ?_, ?_⟩
  · intro hpos
    obtain ⟨s1, hrun, hz, hh1, hc1, hi1⟩ := drainLoop_total cap self doWork
      (fun t => t.haltCompilerThread = true ∧ compiled t = compiled s ∧
        installs t = installs s)
      (fun t ht => ⟨(compilerThreadWork_halt cap self doWork t).trans ht.1,
        (halt_step cap self doWork t ht.1).1.trans ht.2.1,
        (halt_step cap self doWork t ht.1).2.trans ht.2.2⟩)
      s.compilerQueueLength.toNat s ⟨hhalt, rfl, rfl⟩ hpos (Nat.le_refl _)
    have hiter : s.codeCacheFull = false →
        s1 = (compilerThreadWork cap self doWork)^[s.compilerQueueLength.toNat] s := by
      intro hnf
      have h1 := hrun s.compilerQueueLength.toNat (Nat.le_refl _)
      rw [drain_halt_iterate cap self doWork _ s hhalt hnf hpos (Nat.le_refl _)] at h1
      exact (Option.some.inj h1).symm
    refine ⟨s1, hrun, hz, hh1, hc1, hi1, hiter, ?_, ?_⟩
    · intro hc hnf
      rw [hiter hnf]
      exact drain_halt_freed cap self doWork _ s hc hhalt hnf rfl
    · intro fuel
      simp only [compilerThreadLoop, if_pos hh1]
  · intro fuel
    simp only [compilerThreadLoop, if_pos hhalt]

theorem haltQueued_consistent : Consistent 4 haltQueued := by
  unfold Consistent QueueState; decide

/-- C15 witness: the queue of two orders with a halt pending is drained in two
iterations, which free the payloads `9` and `80` in this order and compile
nothing. -/
theorem halt_discards_work_witness :
    (haltQueued.haltCompilerThread = true ∧ 0 < haltQueued.compilerQueueLength ∧
      Consistent 4 haltQueued ∧ haltQueued.codeCacheFull = false) ∧
    freed (compilerThreadWork 4 5 fillingWork haltQueued) = [9] ∧
    ∃ s1, drainLoop 4 5 fillingWork 2 haltQueued = some s1 ∧ s1.compilerQueueLength = 0 ∧
      compiled s1 = [] ∧ installs s1 = [] ∧ freed s1 = [9, 80] :=
  ⟨⟨by decide, by decide, haltQueued_consistent, by decide⟩,
   (halt_discards_work 4 5 fillingWork haltQueued (by decide)).1.2.2.trans (by decide),
   ((halt_discards_work 4 5 fillingWork haltQueued (by decide)).2.1 (by decide)).elim
     (fun s1 h => ⟨s1, h.1 2 (by decide), h.2.1, h.2.2.2.1.trans (by decide),
       h.2.2.2.2.1.trans (by decide),
       (h.2.2.2.2.2.2.1 haltQueued_consistent (by decide)).trans (by decide)⟩)⟩

/-- C15 fails as stated: with two orders queued, no reset and the halt found by
the test of the outer loop, the compiler thread exits with the length still `2`
and no payload freed. -/
theorem halt_at_loop_test_leaves_queue :
    haltQueued.haltCompilerThread = true ∧ haltQueued.compilerQueueLength = 2 ∧
    compilerThreadLoop 4 5 fillingWork 8 haltQueued = some (ThreadStop.exited haltExit) ∧
    haltExit.compilerQueueLength = 2 ∧ ¬ (haltExit.compilerQueueLength = 0) ∧
    freed haltExit = [] ∧ resetTableCount haltExit = 0 := by
  decide

end Dalvik
